import Mathlib

/-!
Resistive touch driver (`touch.c`): sampling, median filter, calibration.

A shallow embedding of `touch.c`.  The hardware the driver talks to is an
environment `Env` (the level of the touch interrupt pin at each read, the byte
clocked in by each SPI transfer, the indeterminate contents of uninitialised
locals); the driver threads a `State` that counts the reads made so far, holds
the level of the chip-select pin, and records every externally visible step
and every access to `databuffer` in a chronological `trace`.

Machine integers are naturals or integers reduced modulo the width of the C
type.  Loops take a `fuel` (the number of iterations allowed).  The loops of
`GetPointRaw`, which are bounded, return `none` when it runs out; the polling
loops of `TouchCalibrate`, which are not, return the state they have reached.
-/

namespace Touch

/-! ## Data model -/

/-- Level of a GPIO pin (`GPIO_PinState` of the HAL). -/
inductive GPIO_PinState where
  | GPIO_PIN_RESET
  | GPIO_PIN_SET
  deriving DecidableEq, Repr

/-- Point with 32-bit signed coordinates (`POINT_T` of `calibrate.h`). -/
structure POINT_T where
  x : Int
  y : Int
  deriving DecidableEq, Repr

/-- Array of three points (`POINT_T p[3]`). -/
structure Points3 where
  p0 : POINT_T
  p1 : POINT_T
  p2 : POINT_T
  deriving DecidableEq, Repr

/-- Steps of the driver that are visible outside it, and the accesses it makes
to the local array `databuffer`. -/
inductive Event where
  /-- `HAL_GPIO_ReadPin(TOUCH_IRQ_PORT, TOUCH_IRQ_PIN)` returned `level`. -/
  | pinRead (level : GPIO_PinState)
  /-- `HAL_GPIO_WritePin(GPIOB, GPIO_PIN_10, level)`: the chip-select pin. -/
  | csWrite (level : GPIO_PinState)
  /-- One `HAL_SPI_TransmitReceive` of byte `tx`, receiving `rx`, made while the
  chip-select pin was at `cs`. -/
  | spi (tx rx : Nat) (cs : GPIO_PinState)
  /-- Store `databuffer[ch][idx] = val`. -/
  | bufWrite (ch idx val : Nat)
  /-- Load of `databuffer[ch][idx]`, which yielded `val`. -/
  | bufRead (ch idx val : Nat)
  /-- Store `*x = val` in `GetPointRaw`. -/
  | storeX (val : Nat)
  /-- Store `*y = val` in `GetPointRaw`. -/
  | storeY (val : Nat)
  /-- Call `DrawCross(x, y, length)`. -/
  | drawCross (x y length : Int)
  /-- Call `getDisplayPoint(&display_point, &raw_point, &matrix)`. -/
  | getDisplayPoint (raw : POINT_T)
  /-- Call `setCalibrationMatrix(display_points, raw_points, &matrix)`. -/
  | setCalibrationMatrix (display raw : Points3)
  deriving DecidableEq, Repr

/-- The world outside the driver. -/
structure Env where
  /-- Level of the touch interrupt pin at the `k`-th read of it. -/
  pin : Nat → GPIO_PinState
  /-- Byte placed in `result` by the `k`-th SPI transfer. -/
  bus : Nat → Nat
  /-- Indeterminate initial content of `databuffer[ch][i]`. -/
  databuffer0 : Nat → Nat → Nat
  /-- Indeterminate initial content of the local `display_point`. -/
  display_point0 : POINT_T
  /-- Indeterminate initial content of the `uint16_t` locals whose address is
  handed to `GetPointRaw` (`raw_x`, `raw_y`; `x`, `y` of `TouchCalibrate`). -/
  xy0 : Nat × Nat

/-- Driver-visible machine state. -/
structure State where
  /-- Number of reads of the touch interrupt pin made so far. -/
  pinReads : Nat
  /-- Number of SPI transfers made so far. -/
  xfers : Nat
  /-- Level of the chip-select pin (`GPIO_PIN_RESET` selects the controller). -/
  cs : GPIO_PinState
  /-- Chronological record of the steps taken. -/
  trace : List Event
  deriving DecidableEq, Repr

/-- Interface of `calibrate.h`, whose implementation is not part of `touch.c`;
the driver is parametric in it.  `getDisplayPoint` writes through its first
pointer, `setCalibrationMatrix` through its last: each receives the prior
content of that object and returns its status together with the new content. -/
structure Calibrate (MATRIX : Type) where
  /-- `getDisplayPoint(displayPtr, screenPtr, matrixPtr)`. -/
  getDisplayPoint : POINT_T → POINT_T → MATRIX → Int × POINT_T
  /-- `setCalibrationMatrix(displayPtr, screenPtr, matrixPtr)`. -/
  setCalibrationMatrix : Points3 → Points3 → MATRIX → Int × MATRIX

/-! ## Constants and macros -/

/-- Command byte that reads the X axis. -/
def COMMAND_READ_X : Nat := 0xD0

/-- Command byte that reads the Y axis. -/
def COMMAND_READ_Y : Nat := 0x90

/-- Number of samples in one burst. -/
def MW_HAL_TOUCH_READ_POINTS_COUNT : Nat := 10

/-- Append one event to the trace. -/
def emit (e : Event) (s : State) : State :=
  { s with trace := s.trace ++ [e] }

/-- Drive the chip-select pin. -/
def HAL_GPIO_WritePin (level : GPIO_PinState) (s : State) : State :=
  { s with cs := level, trace := s.trace ++ [Event.csWrite level] }

/-- Macro `CS_ON`: select the touch controller (pin low). -/
def CS_ON (s : State) : State :=
  HAL_GPIO_WritePin GPIO_PinState.GPIO_PIN_RESET s

/-- Macro `CS_OFF`: deselect the touch controller (pin high). -/
def CS_OFF (s : State) : State :=
  HAL_GPIO_WritePin GPIO_PinState.GPIO_PIN_SET s

/-- Read the touch interrupt pin. -/
def HAL_GPIO_ReadPin (env : Env) (s : State) : GPIO_PinState × State :=
  (env.pin s.pinReads,
    { s with pinReads := s.pinReads + 1,
             trace := s.trace ++ [Event.pinRead (env.pin s.pinReads)] })

/-! ## Functions of `touch.c` -/

/-- `SpiTransfer(byte)`: one byte out, one byte in. -/
def SpiTransfer (env : Env) (byte : Nat) (s : State) : Nat × State :=
  (env.bus s.xfers % 256,
    { s with xfers := s.xfers + 1,
             trace := s.trace ++ [Event.spi byte (env.bus s.xfers % 256) s.cs] })

/-- `DrawCross(x, y, length)`: drawing is left to the graphics library. -/
def DrawCross (x y length : Int) (s : State) : State :=
  emit (Event.drawCross x y length) s

/-- `TouchIsTouched()`: the pin is low while the panel is touched. -/
def TouchIsTouched (env : Env) (s : State) : Bool × State :=
  ((HAL_GPIO_ReadPin env s).1 == GPIO_PinState.GPIO_PIN_RESET, (HAL_GPIO_ReadPin env s).2)

/-- The local `uint16_t databuffer[2][MW_HAL_TOUCH_READ_POINTS_COUNT]`, one list
per row. -/
structure Databuffer where
  row0 : List Nat
  row1 : List Nat
  deriving DecidableEq, Repr

/-- Content of `databuffer` when `GetPointRaw` is entered: indeterminate. -/
def databufferInit (env : Env) : Databuffer :=
  { row0 := (List.range MW_HAL_TOUCH_READ_POINTS_COUNT).map (fun i => env.databuffer0 0 i % 65536),
    row1 := (List.range MW_HAL_TOUCH_READ_POINTS_COUNT).map (fun i => env.databuffer0 1 i % 65536) }

/-- Locals of the sampling loop of `GetPointRaw`. -/
structure Sampling where
  databuffer : Databuffer
  touch_count : Nat
  s : State
  deriving DecidableEq, Repr

/-- Body of the sampling loop: read X, read Y, store both, count. -/
def sampleBody (env : Env) (v : Sampling) : Sampling :=
  let s := v.s
  let s := (SpiTransfer env COMMAND_READ_X s).2
  let hi := SpiTransfer env 0 s
  let x_raw := (hi.1 <<< 8) % 65536
  let lo := SpiTransfer env 0 hi.2
  let x_raw := (x_raw ||| lo.1) % 65536
  let x_raw := x_raw >>> 3
  let s := (SpiTransfer env COMMAND_READ_Y lo.2).2
  let hi := SpiTransfer env 0 s
  let y_raw := (hi.1 <<< 8) % 65536
  let lo := SpiTransfer env 0 hi.2
  let y_raw := (y_raw ||| lo.1) % 65536
  let y_raw := y_raw >>> 3
  let s := emit (Event.bufWrite 0 v.touch_count x_raw) lo.2
  let s := emit (Event.bufWrite 1 v.touch_count y_raw) s
  { databuffer :=
      { row0 := v.databuffer.row0.set v.touch_count x_raw,
        row1 := v.databuffer.row1.set v.touch_count y_raw },
    touch_count := (v.touch_count + 1) % 256,
    s := s }

/-- Sampling loop
`do { ... } while (TouchIsTouched() == true && touch_count < MW_HAL_TOUCH_READ_POINTS_COUNT);`
the pin is read after every sample, the count is compared only when it read
touched. -/
def sampleLoop (env : Env) : Nat → Sampling → Option Sampling
  | 0, _ => none
  | fuel + 1, v =>
    let v := sampleBody env v
    let t := TouchIsTouched env v.s
    let v := { v with s := t.2 }
    if t.1 == true && v.touch_count < MW_HAL_TOUCH_READ_POINTS_COUNT then
      sampleLoop env fuel v
    else
      some v

/-- Locals of one bubble-sort pass over a row of `databuffer`. -/
structure Pass where
  row : List Nat
  sorted : Bool
  trace : List Event
  deriving DecidableEq, Repr

/-- Inner loop of a sort,
`for (i = 0U; i < touch_count - 1U; i++) { if (row[i] > row[i + 1U]) { swap; sorted = false; } }`
on row `ch` of `databuffer`.  `i` is a `uint8_t`, the bound is computed in
32-bit unsigned arithmetic.  Fuel counts executions of the body. -/
def sortPass (ch touch_count : Nat) : Nat → Nat → Pass → Option Pass
  | 0, i, p =>
    if i < (touch_count + 4294967295) % 4294967296 then none else some p
  | fuel + 1, i, p =>
    if i < (touch_count + 4294967295) % 4294967296 then
      let tr := p.trace ++ [Event.bufRead ch i (p.row.getD i 0),
                            Event.bufRead ch (i + 1) (p.row.getD (i + 1) 0)]
      if p.row.getD i 0 > p.row.getD (i + 1) 0 then
        let swap_value := p.row.getD (i + 1) 0
        let tr := tr ++ [Event.bufRead ch (i + 1) swap_value]
        let tr := tr ++ [Event.bufRead ch i (p.row.getD i 0),
                         Event.bufWrite ch (i + 1) (p.row.getD i 0)]
        let row := p.row.set (i + 1) (p.row.getD i 0)
        let tr := tr ++ [Event.bufWrite ch i swap_value]
        let row := row.set i swap_value
        sortPass ch touch_count fuel ((i + 1) % 256) { row := row, sorted := false, trace := tr }
      else
        sortPass ch touch_count fuel ((i + 1) % 256) { p with trace := tr }
    else
      some p

/-- Sort of one row, `do { sorted = true; for (...) {...} } while (!sorted);`.
The first fuel counts passes, `inner` is the fuel of each pass. -/
def sortLoop (ch touch_count inner : Nat) : Nat → List Nat → List Event → Option (List Nat × List Event)
  | 0, _, _ => none
  | fuel + 1, row, tr =>
    match sortPass ch touch_count inner 0 { row := row, sorted := true, trace := tr } with
    | none => none
    | some p =>
      if !p.sorted then sortLoop ch touch_count inner fuel p.row p.trace
      else some (p.row, p.trace)

/-- Result of `GetPointRaw`: the returned flag, the objects `x` and `y` point
to, and the state. -/
structure RawResult where
  ret : Bool
  x : Nat
  y : Nat
  s : State
  deriving DecidableEq, Repr

/-- Median step of `GetPointRaw`:
`*x = (databuffer[0][4] + databuffer[0][5]) / 2U; *y = ...; return true;`
The operands are promoted to 32 bits, the quotient is stored in 16 bits. -/
def medianStep (databuffer : Databuffer) (s : State) : RawResult :=
  let a := databuffer.row0.getD 4 0
  let b := databuffer.row0.getD 5 0
  let x := ((a + b) % 4294967296 / 2) % 65536
  let s := { s with trace := s.trace ++ [Event.bufRead 0 4 a, Event.bufRead 0 5 b, Event.storeX x] }
  let c := databuffer.row1.getD 4 0
  let d := databuffer.row1.getD 5 0
  let y := ((c + d) % 4294967296 / 2) % 65536
  let s := { s with trace := s.trace ++ [Event.bufRead 1 4 c, Event.bufRead 1 5 d, Event.storeY y] }
  { ret := true, x := x, y := y, s := s }

/-- `GetPointRaw(&x, &y)`.  `x` and `y` are the values the two pointers refer
to at entry; `fuel` bounds every loop. -/
def GetPointRaw (env : Env) (fuel : Nat) (x y : Nat) (s : State) : Option RawResult :=
  let t := TouchIsTouched env s
  if !t.1 then
    some { ret := false, x := x, y := y, s := t.2 }
  else
    let s := CS_ON t.2
    match sampleLoop env fuel { databuffer := databufferInit env, touch_count := 0, s := s } with
    | none => none
    | some v =>
      let s := CS_OFF v.s
      if v.touch_count != MW_HAL_TOUCH_READ_POINTS_COUNT then
        some { ret := false, x := x, y := y, s := s }
      else
        match sortLoop 0 v.touch_count fuel fuel v.databuffer.row0 s.trace with
        | none => none
        | some r0 =>
          match sortLoop 1 v.touch_count fuel fuel v.databuffer.row1 r0.2 with
          | none => none
          | some r1 =>
            some (medianStep { row0 := r0.1, row1 := r1.1 } { s with trace := r1.2 })

/-- Conversion to `int16_t`. -/
def toInt16 (v : Int) : Int :=
  (v + 32768) % 65536 - 32768

/-- Result of `TouchGetCalibratedPoint`: the returned flag, the objects `x`
and `y` point to, and the state. -/
structure CalibratedResult where
  ret : Bool
  x : Int
  y : Int
  s : State
  deriving DecidableEq, Repr

/-- `TouchGetCalibratedPoint(&x, &y)` with the stored matrix `matrix`.  The
locals `raw_x`, `raw_y` start indeterminate. -/
def TouchGetCalibratedPoint {MATRIX : Type} (cal : Calibrate MATRIX) (matrix : MATRIX)
    (env : Env) (fuel : Nat) (x y : Int) (s : State) : Option CalibratedResult :=
  match GetPointRaw env fuel (env.xy0.1 % 65536) (env.xy0.2 % 65536) s with
  | none => none
  | some r =>
    if r.ret == false then
      some { ret := false, x := x, y := y, s := r.s }
    else
      let raw_point : POINT_T := { x := Int.ofNat r.x, y := Int.ofNat r.y }
      let s := emit (Event.getDisplayPoint raw_point) r.s
      let display_point := (cal.getDisplayPoint env.display_point0 raw_point matrix).2
      let display_point :=
        if display_point.x > 239 then { display_point with x := 239 } else display_point
      let display_point :=
        if display_point.y > 319 then { display_point with y := 319 } else display_point
      let display_point :=
        if display_point.x < 0 then { display_point with x := 0 } else display_point
      let display_point :=
        if display_point.y < 0 then { display_point with y := 0 } else display_point
      some { ret := true, x := toInt16 display_point.x, y := toInt16 display_point.y, s := s }

/-- Outcome of a loop that has no bound of its own, run for finitely many
iterations: it returned, or it is still polling, in state `s`, when the fuel
ran out. -/
inductive Polled (α : Type) where
  | returned (a : α)
  | polling (s : State)
  deriving DecidableEq, Repr

/-- Loop `while (TouchIsTouched() == false) {}`. -/
def whileNotTouched (env : Env) : Nat → State → Polled State
  | 0, s => Polled.polling s
  | fuel + 1, s =>
    if (TouchIsTouched env s).1 == false then whileNotTouched env fuel (TouchIsTouched env s).2
    else Polled.returned (TouchIsTouched env s).2

/-- Loop `while (TouchIsTouched() == true) {}`. -/
def whileTouched (env : Env) : Nat → State → Polled State
  | 0, s => Polled.polling s
  | fuel + 1, s =>
    if (TouchIsTouched env s).1 == true then whileTouched env fuel (TouchIsTouched env s).2
    else Polled.returned (TouchIsTouched env s).2

/-- Loop `while (GetPointRaw(&x, &y) == false) {}`; `inner` is the fuel of each
call of `GetPointRaw` (ten is enough for a call to return, see
`GetPointRaw_isSome`; a call that ran out of it counts as still polling). -/
def whileGetPointRawFails (env : Env) (inner : Nat) : Nat → Nat → Nat → State → Polled RawResult
  | 0, _, _, s => Polled.polling s
  | fuel + 1, x, y, s =>
    match GetPointRaw env inner x y s with
    | none => Polled.polling s
    | some r =>
      if r.ret == false then whileGetPointRawFails env inner fuel r.x r.y r.s
      else Polled.returned r

/-- `TouchCalibrate()` with the stored matrix `matrix`.  The function returns
`void`: what a completed run leaves is the stored matrix and the state. -/
def TouchCalibrate {MATRIX : Type} (cal : Calibrate MATRIX) (matrix : MATRIX)
    (env : Env) (fuel : Nat) (s : State) : Polled (MATRIX × State) :=
  let display_points : Points3 :=
    { p0 := { x := 40, y := 40 }, p1 := { x := 200, y := 40 }, p2 := { x := 200, y := 280 } }
  let s := DrawCross 40 40 40 s
  match whileNotTouched env fuel s with
  | Polled.polling s => Polled.polling s
  | Polled.returned s =>
  match whileGetPointRawFails env fuel fuel (env.xy0.1 % 65536) (env.xy0.2 % 65536) s with
  | Polled.polling s => Polled.polling s
  | Polled.returned r =>
  let raw0 : POINT_T := { x := Int.ofNat r.x, y := Int.ofNat r.y }
  match whileTouched env fuel r.s with
  | Polled.polling s => Polled.polling s
  | Polled.returned s =>
  let s := DrawCross 200 40 40 s
  match whileNotTouched env fuel s with
  | Polled.polling s => Polled.polling s
  | Polled.returned s =>
  match whileGetPointRawFails env fuel fuel r.x r.y s with
  | Polled.polling s => Polled.polling s
  | Polled.returned r =>
  let raw1 : POINT_T := { x := Int.ofNat r.x, y := Int.ofNat r.y }
  match whileTouched env fuel r.s with
  | Polled.polling s => Polled.polling s
  | Polled.returned s =>
  let s := DrawCross 200 280 40 s
  match whileNotTouched env fuel s with
  | Polled.polling s => Polled.polling s
  | Polled.returned s =>
  match whileGetPointRawFails env fuel fuel r.x r.y s with
  | Polled.polling s => Polled.polling s
  | Polled.returned r =>
  let raw2 : POINT_T := { x := Int.ofNat r.x, y := Int.ofNat r.y }
  match whileTouched env fuel r.s with
  | Polled.polling s => Polled.polling s
  | Polled.returned s =>
  let raw_points : Points3 := { p0 := raw0, p1 := raw1, p2 := raw2 }
  let s := emit (Event.setCalibrationMatrix display_points raw_points) s
  Polled.returned ((cal.setCalibrationMatrix display_points raw_points matrix).2, s)

/-- The state a run of `TouchCalibrate` has reached. -/
def Polled.finalState {MATRIX : Type} : Polled (MATRIX × State) → State
  | Polled.returned r => r.2
  | Polled.polling s => s

/-! ## The burst as a function of the bus bytes -/

/-- Raw sample assembled from the two bytes of one axis: `((hi << 8) | lo) >> 3`
in 16 bits. -/
def rawSample (hi lo : Nat) : Nat :=
  ((((hi % 256) <<< 8) % 65536 ||| (lo % 256)) % 65536) >>> 3

/-- X sample number `k` of a burst that starts when `s.xfers` transfers were
made: bytes 1 and 2 of the six transfers of that sample. -/
def sampleX (env : Env) (s : State) (k : Nat) : Nat :=
  rawSample (env.bus (s.xfers + 6 * k + 1)) (env.bus (s.xfers + 6 * k + 2))

/-- Y sample number `k` of that burst: bytes 4 and 5 of its six transfers. -/
def sampleY (env : Env) (s : State) (k : Nat) : Nat :=
  rawSample (env.bus (s.xfers + 6 * k + 4)) (env.bus (s.xfers + 6 * k + 5))

/-- The ten X samples of the burst. -/
def burstX (env : Env) (s : State) : List Nat :=
  (List.range MW_HAL_TOUCH_READ_POINTS_COUNT).map (sampleX env s)

/-- The ten Y samples of the burst. -/
def burstY (env : Env) (s : State) : List Nat :=
  (List.range MW_HAL_TOUCH_READ_POINTS_COUNT).map (sampleY env s)

/-- The `k`-th smallest element of `xs`, counting from 1 (order statistic),
read off an insertion sort of `xs`. -/
def orderStatistic (xs : List Nat) (k : Nat) : Nat :=
  (xs.insertionSort (· ≤ ·)).getD (k - 1) 0

/-! ## Classes of events -/

/-- Events of the sampling loop: transfers made at chip-select level `cs`, pin
reads, and stores to `databuffer` inside its bounds. -/
def isSampleEvent (cs : GPIO_PinState) : Event → Prop
  | Event.spi _ _ c => c = cs
  | Event.pinRead _ => True
  | Event.bufWrite ch i _ => ch < 2 ∧ i < MW_HAL_TOUCH_READ_POINTS_COUNT
  | _ => False

/-- An access to row `ch` of `databuffer` at an index below `n`. -/
def isBufAccess (ch n : Nat) : Event → Prop
  | Event.bufRead c i _ => c = ch ∧ i < n
  | Event.bufWrite c i _ => c = ch ∧ i < n
  | _ => False

/-- Events of the sort and median steps of `GetPointRaw`: accesses to
`databuffer` inside its bounds and the stores through `x` and `y`. -/
def isFilterEvent : Event → Prop
  | Event.bufRead ch i _ => ch < 2 ∧ i < MW_HAL_TOUCH_READ_POINTS_COUNT
  | Event.bufWrite ch i _ => ch < 2 ∧ i < MW_HAL_TOUCH_READ_POINTS_COUNT
  | Event.storeX _ => True
  | Event.storeY _ => True
  | _ => False

/-- A load from `databuffer`. -/
def isBufRead : Event → Prop
  | Event.bufRead _ _ _ => True
  | _ => False

/-- Events that only the sort and median steps produce: loads from `databuffer`
and the stores through `x` and `y`. -/
def isLoadOrStore : Event → Prop
  | Event.bufRead _ _ _ => True
  | Event.storeX _ => True
  | Event.storeY _ => True
  | _ => False

/-- An access to `databuffer` stays inside `databuffer[2][10]`; other events
are no accesses. -/
def inBounds : Event → Prop
  | Event.bufRead ch i _ => ch < 2 ∧ i < MW_HAL_TOUCH_READ_POINTS_COUNT
  | Event.bufWrite ch i _ => ch < 2 ∧ i < MW_HAL_TOUCH_READ_POINTS_COUNT
  | _ => True

/-- Events of `GetPointRaw` other than its two final stores. -/
def isQuiet : Event → Prop
  | Event.pinRead _ => True
  | Event.csWrite _ => True
  | Event.spi _ _ _ => True
  | Event.bufWrite _ _ _ => True
  | Event.bufRead _ _ _ => True
  | _ => False

/-- A call of `getDisplayPoint`. -/
def isGetDisplayPoint : Event → Prop
  | Event.getDisplayPoint _ => True
  | _ => False

/-- The store through `y` that ends a successful `GetPointRaw`. -/
def isStoreY : Event → Prop
  | Event.storeY _ => True
  | _ => False

/-- Events that belong to a later step of the calibration than the acquisition
before them: a cross is drawn, a point is stored, the matrix is solved. -/
def isNextStep : Event → Prop
  | Event.drawCross _ _ _ => True
  | Event.storeX _ => True
  | Event.storeY _ => True
  | Event.setCalibrationMatrix _ _ => True
  | _ => False

/-! ## Shape of the traces of `TouchCalibrate` -/

/-- The three display targets of `TouchCalibrate`, in the order they are shown. -/
def calibrationTargets : Points3 :=
  { p0 := { x := 40, y := 40 }, p1 := { x := 200, y := 40 }, p2 := { x := 200, y := 280 } }

/-- Three raw points lie on one line: the determinant of the three-point
system is zero. -/
def collinear (raw : Points3) : Prop :=
  (raw.p0.x - raw.p2.x) * (raw.p1.y - raw.p2.y)
    - (raw.p1.x - raw.p2.x) * (raw.p0.y - raw.p2.y) = 0

instance (raw : Points3) : Decidable (collinear raw) := by
  unfold collinear
  infer_instance

/-- Shape of the trace of one target of `TouchCalibrate`: the cross is drawn at
`(tx, ty)`; the pin is polled until it reads touched; `GetPointRaw` is called
until it stores a point, which is `raw`; the pin is polled until it reads
released. -/
def PhaseTrace (tx ty : Int) (raw : POINT_T) (seg : List Event) : Prop :=
  ∃ (k1 k2 : Nat) (acq1 acq2 : List Event) (xv yv : Nat),
    raw = { x := Int.ofNat xv, y := Int.ofNat yv }
    ∧ seg = [Event.drawCross tx ty 40]
          ++ List.replicate k1 (Event.pinRead GPIO_PinState.GPIO_PIN_SET)
          ++ [Event.pinRead GPIO_PinState.GPIO_PIN_RESET]
          ++ acq1 ++ [Event.storeX xv] ++ acq2 ++ [Event.storeY yv]
          ++ List.replicate k2 (Event.pinRead GPIO_PinState.GPIO_PIN_RESET)
          ++ [Event.pinRead GPIO_PinState.GPIO_PIN_SET]
    ∧ (∀ e ∈ acq1, isQuiet e) ∧ (∀ e ∈ acq2, isQuiet e)

/-- Between the end of a successful acquisition and any later cross, stored
point or solve, the pin was read released. -/
def ReleaseBetween (tr : List Event) : Prop :=
  ∀ (pre mid post : List Event) (e1 e2 : Event),
    tr = pre ++ e1 :: (mid ++ e2 :: post) → isStoreY e1 → isNextStep e2 →
    Event.pinRead GPIO_PinState.GPIO_PIN_SET ∈ mid

/-- Monitor for `ReleaseBetween`: `held` tells that a point was stored and the
pin was not read released since; the result is the flag after the events, or
`none` when a next step is taken while it is set. -/
def heldAfter : Bool → List Event → Option Bool
  | held, [] => some held
  | held, Event.storeY _ :: es => if held then none else heldAfter true es
  | held, Event.storeX _ :: es => if held then none else heldAfter held es
  | held, Event.drawCross _ _ _ :: es => if held then none else heldAfter held es
  | held, Event.setCalibrationMatrix _ _ :: es => if held then none else heldAfter held es
  | _, Event.pinRead GPIO_PinState.GPIO_PIN_SET :: es => heldAfter false es
  | held, Event.pinRead GPIO_PinState.GPIO_PIN_RESET :: es => heldAfter held es
  | held, Event.csWrite _ :: es => heldAfter held es
  | held, Event.spi _ _ _ :: es => heldAfter held es
  | held, Event.bufWrite _ _ _ :: es => heldAfter held es
  | held, Event.bufRead _ _ _ :: es => heldAfter held es
  | held, Event.getDisplayPoint _ :: es => heldAfter held es

/-- One target of `TouchCalibrate` as a function of its own: draw the cross,
wait for the touch, acquire, wait for the release. -/
def calibrationPhase (env : Env) (fuel : Nat) (tx ty : Int) (x y : Nat) (s : State) :
    Polled (RawResult × State) :=
  match whileNotTouched env fuel (DrawCross tx ty 40 s) with
  | Polled.polling s => Polled.polling s
  | Polled.returned s =>
  match whileGetPointRawFails env fuel fuel x y s with
  | Polled.polling s => Polled.polling s
  | Polled.returned r =>
  match whileTouched env fuel r.s with
  | Polled.polling s => Polled.polling s
  | Polled.returned s => Polled.returned (r, s)

/-! ## Loop invariants -/

/-- One pass over `a :: l` with `a` the element carried forward: the value a
pass leaves below index `1 + l.length`. -/
def bubbleAux (a : Nat) : List Nat → List Nat
  | [] => [a]
  | b :: r => if a > b then b :: bubbleAux a r else a :: bubbleAux b r

/-- No adjacent pair of `a :: l` is out of order. -/
def noSwap (a : Nat) : List Nat → Bool
  | [] => true
  | b :: r => decide (a ≤ b) && noSwap b r

/-- The last `k` elements are in their final place: sorted, and no smaller
than anything before them. -/
def SuffixSorted (k : Nat) (l : List Nat) : Prop :=
  ∃ p s, l = p ++ s ∧ s.length = k ∧ List.Sorted (· ≤ ·) s ∧ ∀ x ∈ p, ∀ y ∈ s, x ≤ y

/-- One iteration of the sampling loop: the body, then the pin read of the
loop condition. -/
def sampleStep (env : Env) (v : Sampling) : Sampling :=
  { sampleBody env v with s := (TouchIsTouched env (sampleBody env v).s).2 }

/-- State in which the sampling loop is entered: the pin was read once, the
controller selected. -/
def burstEntry (env : Env) (s : State) : State :=
  CS_ON (TouchIsTouched env s).2

/-- What holds after `v.touch_count` iterations of the sampling loop that was
entered in state `s0`. -/
structure SampleInv (env : Env) (s0 : State) (v : Sampling) : Prop where
  count_le : v.touch_count ≤ 10
  len0 : v.databuffer.row0.length = 10
  len1 : v.databuffer.row1.length = 10
  cs_eq : v.s.cs = s0.cs
  xfers_eq : v.s.xfers = s0.xfers + 6 * v.touch_count
  pinReads_eq : v.s.pinReads = s0.pinReads + v.touch_count
  row0_eq : ∀ i, i < v.touch_count → v.databuffer.row0.getD i 0 = sampleX env s0 i
  row1_eq : ∀ i, i < v.touch_count → v.databuffer.row1.getD i 0 = sampleY env s0 i
  touched : ∀ j, j + 1 < v.touch_count → env.pin (s0.pinReads + j) = GPIO_PinState.GPIO_PIN_RESET
  trace_eq : ∃ d, v.s.trace = s0.trace ++ d ∧ (∀ e ∈ d, isSampleEvent s0.cs e) ∧
    ∀ i, i < v.touch_count →
      Event.bufWrite 0 i (sampleX env s0 i) ∈ d ∧ Event.bufWrite 1 i (sampleY env s0 i) ∈ d

/-! ## The calibration engine, from the specification -/

/-- Modelled from the spec: the `CalibrationMatrix` of `calibrate.h`, which is
not among the sources: the 2×3 coefficient set of the affine map, as numerators
over a common divider. -/
structure MATRIX where
  An : Int
  Bn : Int
  Cn : Int
  Dn : Int
  En : Int
  Fn : Int
  Divider : Int
  deriving DecidableEq, Repr

/-- Modelled from the spec: `Solve` (`setCalibrationMatrix` of `calibrate.c`,
which is not among the sources).  The three raw points must not be collinear;
when the determinant of the system is zero the solve fails (status `-1`) and
hands back the matrix it was given, otherwise it returns status `0` and the
coefficients of the affine map through the three correspondences, by Cramer's
rule. -/
def solveSpec (display raw : Points3) (m : MATRIX) : Int × MATRIX :=
  let det := (raw.p0.x - raw.p2.x) * (raw.p1.y - raw.p2.y)
    - (raw.p1.x - raw.p2.x) * (raw.p0.y - raw.p2.y)
  if det = 0 then (-1, m)
  else
    (0,
      { An := (display.p0.x - display.p2.x) * (raw.p1.y - raw.p2.y)
          - (display.p1.x - display.p2.x) * (raw.p0.y - raw.p2.y),
        Bn := (raw.p0.x - raw.p2.x) * (display.p1.x - display.p2.x)
          - (display.p0.x - display.p2.x) * (raw.p1.x - raw.p2.x),
        Cn := (raw.p2.x * display.p1.x - raw.p1.x * display.p2.x) * raw.p0.y
          + (raw.p0.x * display.p2.x - raw.p2.x * display.p0.x) * raw.p1.y
          + (raw.p1.x * display.p0.x - raw.p0.x * display.p1.x) * raw.p2.y,
        Dn := (display.p0.y - display.p2.y) * (raw.p1.y - raw.p2.y)
          - (display.p1.y - display.p2.y) * (raw.p0.y - raw.p2.y),
        En := (raw.p0.x - raw.p2.x) * (display.p1.y - display.p2.y)
          - (display.p0.y - display.p2.y) * (raw.p1.x - raw.p2.x),
        Fn := (raw.p2.x * display.p1.y - raw.p1.x * display.p2.y) * raw.p0.y
          + (raw.p0.x * display.p2.y - raw.p2.x * display.p0.y) * raw.p1.y
          + (raw.p1.x * display.p0.y - raw.p0.x * display.p1.y) * raw.p2.y,
        Divider := det })

/-- Modelled from the spec: `Apply` (`getDisplayPoint` of `calibrate.c`, which
is not among the sources): `display = A·raw + b` with the stored coefficients,
in truncating integer arithmetic; with a zero divider nothing is computed and
the display point is left as it was. -/
def applySpec (display raw : POINT_T) (m : MATRIX) : Int × POINT_T :=
  if m.Divider = 0 then (-1, display)
  else
    (0, { x := Int.tdiv (m.An * raw.x + m.Bn * raw.y + m.Cn) m.Divider,
          y := Int.tdiv (m.Dn * raw.x + m.En * raw.y + m.Fn) m.Divider })

/-- Modelled from the spec: the calibration engine of section 4.4 of the
specification, as an instance of the interface the driver uses. -/
def calibrateSpec : Calibrate MATRIX :=
  { getDisplayPoint := applySpec, setCalibrationMatrix := solveSpec }

/-- The calibration engine `calibrateSpec` with the status of the solve
replaced by success. -/
def calibrateSpecSilent : Calibrate MATRIX :=
  { getDisplayPoint := applySpec,
    setCalibrationMatrix := fun display raw m => (0, (solveSpec display raw m).2) }

/-- A matrix that maps a raw point to ten times itself minus 1000. -/
def matrixTimesTen : MATRIX :=
  { An := 10, Bn := 0, Cn := -1000, Dn := 0, En := 10, Fn := -1000, Divider := 1 }

/-- The identity matrix. -/
def matrixIdentity : MATRIX :=
  { An := 1, Bn := 0, Cn := 0, Dn := 0, En := 1, Fn := 0, Divider := 1 }

/-! ## Concrete states and environments -/

/-- A state with nothing done yet and the controller deselected. -/
def idleState : State :=
  { pinReads := 0, xfers := 0, cs := GPIO_PinState.GPIO_PIN_SET, trace := [] }

/-- A state with nothing done yet in which the controller is selected. -/
def selectedState : State :=
  { pinReads := 0, xfers := 0, cs := GPIO_PinState.GPIO_PIN_RESET, trace := [] }

/-- An environment in which the panel is touched all the time and the bus
returns varying bytes. -/
def envHeld : Env :=
  { pin := fun _ => GPIO_PinState.GPIO_PIN_RESET, bus := fun k => k * 37,
    databuffer0 := fun _ _ => 7, display_point0 := { x := 0, y := 0 }, xy0 := (0, 0) }

/-- An environment in which the panel is never touched. -/
def envIdle : Env :=
  { pin := fun _ => GPIO_PinState.GPIO_PIN_SET, bus := fun k => k * 37,
    databuffer0 := fun _ _ => 7, display_point0 := { x := 0, y := 0 }, xy0 := (0, 0) }

/-- An environment in which the touch is lifted after the fourth sample. -/
def envLifted : Env :=
  { pin := fun k => if k < 4 then GPIO_PinState.GPIO_PIN_RESET else GPIO_PinState.GPIO_PIN_SET,
    bus := fun k => k * 37,
    databuffer0 := fun _ _ => 7, display_point0 := { x := 0, y := 0 }, xy0 := (0, 0) }

/-- An environment in which the panel is touched all the time and every byte
on the bus is `0xFF`. -/
def envAllOnes : Env :=
  { pin := fun _ => GPIO_PinState.GPIO_PIN_RESET, bus := fun _ => 255,
    databuffer0 := fun _ _ => 7, display_point0 := { x := 0, y := 0 }, xy0 := (0, 0) }

/-- An environment in which the panel is touched all the time and the
controller reports the burst `xs`, `ys`: sample `k` is sent as the 16-bit word
`8 * xs[k]` resp. `8 * ys[k]`, high byte first. -/
def envOfBurst (xs ys : List Nat) : Env :=
  { pin := fun _ => GPIO_PinState.GPIO_PIN_RESET,
    bus := fun k =>
      if k % 6 = 1 then xs.getD (k / 6) 0 * 8 / 256
      else if k % 6 = 2 then xs.getD (k / 6) 0 * 8 % 256
      else if k % 6 = 4 then ys.getD (k / 6) 0 * 8 / 256
      else if k % 6 = 5 then ys.getD (k / 6) 0 * 8 % 256
      else 0,
    databuffer0 := fun _ _ => 0, display_point0 := { x := 0, y := 0 }, xy0 := (0, 0) }

/-- An environment for a calibration run: the panel is touched for twelve reads
of the pin and released at the thirteenth, three times over; during the three
touches the controller reports the raw points (100, 100), (200, 200) and
(300, 300), which lie on one line. -/
def envSwipe : Env :=
  { pin := fun k =>
      if k % 13 = 12 then GPIO_PinState.GPIO_PIN_SET else GPIO_PinState.GPIO_PIN_RESET,
    bus := fun k =>
      if k % 3 = 1 then 3 * (k / 60 + 1) else if k % 3 = 2 then 32 * (k / 60 + 1) else 0,
    databuffer0 := fun _ _ => 7, display_point0 := { x := 0, y := 0 }, xy0 := (0, 0) }

/-- An environment for a calibration run with the same touches as `envSwipe`
in which the controller reports (100, 100), (200, 100) and (200, 300). -/
def envCorners : Env :=
  { pin := fun k =>
      if k % 13 = 12 then GPIO_PinState.GPIO_PIN_SET else GPIO_PinState.GPIO_PIN_RESET,
    bus := fun k =>
      if k % 6 = 1 then (if k / 60 = 0 then 3 else 6)
      else if k % 6 = 2 then (if k / 60 = 0 then 32 else 64)
      else if k % 6 = 4 then (if k / 60 = 2 then 9 else 3)
      else if k % 6 = 5 then (if k / 60 = 2 then 96 else 32)
      else 0,
    databuffer0 := fun _ _ => 7, display_point0 := { x := 0, y := 0 }, xy0 := (0, 0) }

/-! ## The sort loops -/

theorem getD_append_cons (pre : List Nat) (a : Nat) (rest : List Nat) :
    (pre ++ a :: rest).getD pre.length 0 = a := by
  induction pre with
  | nil => simp
  | cons p pre ih => simpa using ih

theorem getD_append_cons_succ (pre : List Nat) (a b : Nat) (rest : List Nat) :
    (pre ++ a :: b :: rest).getD (pre.length + 1) 0 = b := by
  have h : pre ++ a :: b :: rest = (pre ++ [a]) ++ b :: rest := by simp
  rw [h]
  have h2 : pre.length + 1 = (pre ++ [a]).length := by simp
  rw [h2]
  exact getD_append_cons _ _ _

theorem set_append_cons (pre : List Nat) (a v : Nat) (rest : List Nat) :
    (pre ++ a :: rest).set pre.length v = pre ++ v :: rest := by
  induction pre with
  | nil => simp
  | cons p pre ih => simp [ih]

theorem set_append_cons_succ (pre : List Nat) (a b v : Nat) (rest : List Nat) :
    (pre ++ a :: b :: rest).set (pre.length + 1) v = pre ++ a :: v :: rest := by
  induction pre with
  | nil => simp
  | cons p pre ih => simp [ih]

theorem sortPass_eq (ch n : Nat) (hn : n ≤ 256) :
    ∀ (rest pre : List Nat) (a : Nat) (fuel : Nat) (sorted : Bool) (tr : List Event),
      (pre ++ a :: rest).length = n → rest.length ≤ fuel →
      ∃ d, sortPass ch n fuel pre.length { row := pre ++ a :: rest, sorted := sorted, trace := tr }
          = some { row := pre ++ bubbleAux a rest, sorted := sorted && noSwap a rest,
                   trace := tr ++ d }
        ∧ ∀ e ∈ d, isBufAccess ch n e := by
  intro rest
  induction rest with
  | nil =>
    intro pre a fuel sorted tr hlen _
    refine ⟨[], ?_, by simp⟩
    have hb : (n + 4294967295) % 4294967296 = n - 1 := by
      simp at hlen; omega
    have hi : ¬ pre.length < n - 1 := by simp at hlen; omega
    cases fuel <;> simp [sortPass, hb, hi, bubbleAux, noSwap]
  | cons b r ih =>
    intro pre a fuel sorted tr hlen hfuel
    have hb : (n + 4294967295) % 4294967296 = n - 1 := by
      simp at hlen; omega
    have hi : pre.length < n - 1 := by simp at hlen; omega
    have hlen2 : pre.length + 1 < n := by omega
    have hmod : (pre.length + 1) % 256 = pre.length + 1 := by omega
    cases fuel with
    | zero => simp at hfuel
    | succ f =>
      have hf : r.length ≤ f := by simpa using hfuel
      by_cases hab : a > b
      · have key := ih (pre ++ [b]) a f false
          (tr ++ [Event.bufRead ch pre.length a, Event.bufRead ch (pre.length + 1) b]
            ++ [Event.bufRead ch (pre.length + 1) b]
            ++ [Event.bufRead ch pre.length a, Event.bufWrite ch (pre.length + 1) a]
            ++ [Event.bufWrite ch pre.length b])
          (by simpa using hlen) hf
        obtain ⟨d, hd, hacc⟩ := key
        refine ⟨[Event.bufRead ch pre.length a, Event.bufRead ch (pre.length + 1) b,
            Event.bufRead ch (pre.length + 1) b, Event.bufRead ch pre.length a,
            Event.bufWrite ch (pre.length + 1) a, Event.bufWrite ch pre.length b] ++ d, ?_, ?_⟩
        · rw [sortPass]
          simp only [hb, hi, if_true, getD_append_cons, getD_append_cons_succ, hab, hmod,
            set_append_cons_succ]
          have hset : (pre ++ a :: a :: r).set pre.length b = pre ++ b :: a :: r :=
            set_append_cons pre a b (a :: r)
          rw [hset]
          simp only [List.length_append, List.length_singleton, List.append_assoc,
            List.singleton_append] at hd
          simp only [List.append_assoc, List.cons_append, List.nil_append] at hd ⊢
          rw [hd]
          have hnb : ¬ a ≤ b := by omega
          simp [bubbleAux, noSwap, hab, hnb]
        · intro e he
          simp only [List.mem_append, List.mem_cons, List.mem_singleton, List.not_mem_nil,
            or_false] at he
          rcases he with (he | he | he | he | he | he) | he
          · subst he; exact ⟨rfl, by omega⟩
          · subst he; exact ⟨rfl, by omega⟩
          · subst he; exact ⟨rfl, by omega⟩
          · subst he; exact ⟨rfl, by omega⟩
          · subst he; exact ⟨rfl, by omega⟩
          · subst he; exact ⟨rfl, by omega⟩
          · exact hacc e he
      · have key := ih (pre ++ [a]) b f sorted
          (tr ++ [Event.bufRead ch pre.length a, Event.bufRead ch (pre.length + 1) b])
          (by simpa using hlen) hf
        obtain ⟨d, hd, hacc⟩ := key
        refine ⟨[Event.bufRead ch pre.length a, Event.bufRead ch (pre.length + 1) b] ++ d,
          ?_, ?_⟩
        · rw [sortPass]
          simp only [hb, hi, if_true, getD_append_cons, getD_append_cons_succ, hab, hmod,
            if_false]
          simp only [List.length_append, List.length_singleton, List.append_assoc,
            List.singleton_append] at hd
          simp only [List.append_assoc, List.cons_append, List.nil_append] at hd ⊢
          rw [hd]
          have hle : a ≤ b := by omega
          simp [bubbleAux, noSwap, hab, hle]
        · intro e he
          simp only [List.mem_append, List.mem_cons, List.mem_singleton, List.not_mem_nil,
            or_false] at he
          rcases he with (he | he) | he
          · subst he; exact ⟨rfl, by omega⟩
          · subst he; exact ⟨rfl, by omega⟩
          · exact hacc e he

theorem bubbleAux_perm (l : List Nat) : ∀ a, (bubbleAux a l).Perm (a :: l) := by
  induction l with
  | nil => intro a; simp [bubbleAux]
  | cons b r ih =>
    intro a
    by_cases hab : a > b
    · simp only [bubbleAux, hab, if_true]
      exact ((ih a).cons b).trans (List.Perm.swap a b r)
    · simp only [bubbleAux, hab, if_false]
      exact (ih b).cons a

theorem bubbleAux_length (l : List Nat) (a : Nat) : (bubbleAux a l).length = l.length + 1 := by
  simpa using (bubbleAux_perm l a).length_eq

theorem noSwap_iff_sorted (l : List Nat) : ∀ a, noSwap a l = true ↔ List.Sorted (· ≤ ·) (a :: l) := by
  induction l with
  | nil => intro a; simp [noSwap]
  | cons b r ih =>
    intro a
    simp only [noSwap, Bool.and_eq_true, decide_eq_true_eq, ih b, List.sorted_cons]
    constructor
    · rintro ⟨hab, hb, hr⟩
      refine ⟨?_, hb, hr⟩
      intro x hx
      rcases List.mem_cons.mp hx with rfl | hx
      · exact hab
      · exact le_trans hab (hb x hx)
    · rintro ⟨ha, hb, hr⟩
      exact ⟨ha b (List.mem_cons_self _ _), hb, hr⟩

theorem bubbleAux_of_noSwap (l : List Nat) : ∀ a, noSwap a l = true → bubbleAux a l = a :: l := by
  induction l with
  | nil => intro a _; rfl
  | cons b r ih =>
    intro a h
    simp only [noSwap, Bool.and_eq_true, decide_eq_true_eq] at h
    have hab : ¬ a > b := by omega
    simp [bubbleAux, hab, ih b h.2]

/-- A pass moves a largest element to the end. -/
theorem bubbleAux_last (l : List Nat) :
    ∀ a, ∃ init m, bubbleAux a l = init ++ [m] ∧ a ≤ m ∧ ∀ x ∈ init, x ≤ m := by
  induction l with
  | nil => intro a; exact ⟨[], a, rfl, le_refl _, by simp⟩
  | cons b r ih =>
    intro a
    by_cases hab : a > b
    · obtain ⟨init, m, h, ham, hinit⟩ := ih a
      refine ⟨b :: init, m, by simp [bubbleAux, hab, h], ham, ?_⟩
      intro x hx
      rcases List.mem_cons.mp hx with rfl | hx
      · omega
      · exact hinit x hx
    · obtain ⟨init, m, h, hbm, hinit⟩ := ih b
      refine ⟨a :: init, m, by simp [bubbleAux, hab, h], by omega, ?_⟩
      intro x hx
      rcases List.mem_cons.mp hx with rfl | hx
      · omega
      · exact hinit x hx

/-- A pass leaves alone a sorted suffix that dominates the rest. -/
theorem bubbleAux_append (s : List Nat) (hs : List.Sorted (· ≤ ·) s) :
    ∀ (p : List Nat) (a : Nat), (∀ x ∈ a :: p, ∀ y ∈ s, x ≤ y) →
      bubbleAux a (p ++ s) = bubbleAux a p ++ s := by
  intro p
  induction p with
  | nil =>
    intro a h
    have : noSwap a s = true := by
      rw [noSwap_iff_sorted]
      exact List.sorted_cons.mpr ⟨fun y hy => h a (List.mem_cons_self _ _) y hy, hs⟩
    simpa [bubbleAux] using bubbleAux_of_noSwap s a this
  | cons b q ih =>
    intro a h
    by_cases hab : a > b
    · have := ih a (by
        intro x hx y hy
        rcases List.mem_cons.mp hx with rfl | hx
        · exact h _ (List.mem_cons_self _ _) y hy
        · exact h x (List.mem_cons_of_mem _ (List.mem_cons_of_mem _ hx)) y hy)
      simp [bubbleAux, hab, this]
    · have := ih b (by
        intro x hx y hy
        exact h x (List.mem_cons_of_mem _ hx) y hy)
      simp [bubbleAux, hab, this]

theorem suffixSorted_zero (l : List Nat) : SuffixSorted 0 l :=
  ⟨l, [], by simp, rfl, List.sorted_nil, by simp⟩

theorem sorted_of_suffixSorted (k : Nat) (l : List Nat) (h : SuffixSorted k l)
    (hk : l.length ≤ k + 1) : List.Sorted (· ≤ ·) l := by
  obtain ⟨p, s, rfl, hlen, hs, hps⟩ := h
  match p, hps, hk with
  | [], _, _ => simpa using hs
  | [a], hps, _ =>
    exact List.sorted_cons.mpr ⟨fun y hy => hps a (by simp) y hy, hs⟩
  | a :: b :: q, _, hk => simp at hk; omega

theorem suffixSorted_bubble (k : Nat) (a : Nat) (l : List Nat) (h : SuffixSorted k (a :: l))
    (hns : noSwap a l = false) : SuffixSorted (k + 1) (bubbleAux a l) := by
  obtain ⟨p, s, hl, hlen, hs, hps⟩ := h
  match p, hl, hps with
  | [], hl, _ =>
    exfalso
    have : noSwap a l = true := by
      rw [noSwap_iff_sorted]; simpa [hl] using hs
    simp [this] at hns
  | a' :: q, hl, hps =>
    simp only [List.cons_append, List.cons.injEq] at hl
    obtain ⟨rfl, rfl⟩ := hl
    rw [bubbleAux_append s hs q a hps]
    obtain ⟨init, m, hm, _, hinit⟩ := bubbleAux_last q a
    have hperm : (init ++ [m]).Perm (a :: q) := hm ▸ bubbleAux_perm q a
    have hmem : ∀ x, x ∈ init ++ [m] → x ∈ a :: q := fun x hx => hperm.subset hx
    refine ⟨init, m :: s, by simp [hm], by simp [hlen], ?_, ?_⟩
    · exact List.sorted_cons.mpr ⟨fun y hy => hps m (hmem m (by simp)) y hy, hs⟩
    · intro x hx y hy
      rcases List.mem_cons.mp hy with rfl | hy
      · exact hinit x hx
      · exact hps x (hmem x (by simp [hx])) y hy

/-- The sort loop returns within `n - k` passes when the last `k` elements are
already in place; its result is sorted and a permutation of the row. -/
theorem sortLoop_spec (ch n inner : Nat) (hn : n ≤ 256) (hinner : n ≤ inner + 1) :
    ∀ (fuel k : Nat) (row : List Nat) (tr : List Event),
      row.length = n → 0 < n → SuffixSorted k row → n ≤ fuel + k → 0 < fuel →
      ∃ row' d, sortLoop ch n inner fuel row tr = some (row', tr ++ d)
        ∧ List.Sorted (· ≤ ·) row' ∧ row'.Perm row ∧ ∀ e ∈ d, isBufAccess ch n e := by
  intro fuel
  induction fuel with
  | zero => intro k row tr _ _ _ _ h; omega
  | succ f ih =>
    intro k row tr hlen hpos hinv hfuel _
    match row, hlen, hinv with
    | [], hlen, _ => simp at hlen; omega
    | a :: l, hlen, hinv =>
      obtain ⟨d, hd, hacc⟩ := sortPass_eq ch n hn l [] a inner true tr (by simpa using hlen)
        (by simp at hlen; omega)
      simp only [List.length_nil, List.nil_append, Bool.true_and] at hd
      by_cases hns : noSwap a l = true
      · refine ⟨a :: l, d, ?_, (noSwap_iff_sorted l a).mp hns, List.Perm.refl _, hacc⟩
        simp [sortLoop, hd, hns, bubbleAux_of_noSwap l a hns]
      · have hns' : noSwap a l = false := by simpa using hns
        have hk : k + 1 < n := by
          by_contra hcon
          have := sorted_of_suffixSorted k (a :: l) hinv (by omega)
          exact hns ((noSwap_iff_sorted l a).mpr this)
        obtain ⟨row', d', hd', hsorted, hperm, hacc'⟩ :=
          ih (k + 1) (bubbleAux a l) (tr ++ d)
            (by rw [bubbleAux_length]; simpa using hlen) hpos
            (suffixSorted_bubble k a l hinv hns') (by omega) (by omega)
        refine ⟨row', d ++ d', ?_, hsorted, hperm.trans (bubbleAux_perm l a), ?_⟩
        · simp [sortLoop, hd, hns', hd']
        · intro e he
          rcases List.mem_append.mp he with he | he
          · exact hacc e he
          · exact hacc' e he

/-! ## The sampling loop -/

theorem getD_set_eq (row : List Nat) (c v i : Nat) (hc : c < row.length) :
    (row.set c v).getD i 0 = if i = c then v else row.getD i 0 := by
  simp only [List.getD_eq_getElem?_getD, List.getElem?_set]
  by_cases h : c = i
  · subst h; simp [hc]
  · have h' : ¬ i = c := fun e => h e.symm
    simp [h, h']

theorem sampleStep_inv (env : Env) (s0 : State) (v : Sampling) (h : SampleInv env s0 v)
    (hc : v.touch_count < 10)
    (ht : ∀ j, j < v.touch_count → env.pin (s0.pinReads + j) = GPIO_PinState.GPIO_PIN_RESET) :
    SampleInv env s0 (sampleStep env v) ∧ (sampleStep env v).touch_count = v.touch_count + 1 := by
  obtain ⟨d, hd, hev, hwr⟩ := h.trace_eq
  have hcount : (sampleStep env v).touch_count = v.touch_count + 1 := by
    simp [sampleStep, sampleBody]; omega
  refine ⟨⟨?_, ?_, ?_, ?_, ?_, ?_, ?_, ?_, ?_, ?_⟩, hcount⟩
  · rw [hcount]; omega
  · simp [sampleStep, sampleBody, h.len0]
  · simp [sampleStep, sampleBody, h.len1]
  · simp [sampleStep, sampleBody, TouchIsTouched, HAL_GPIO_ReadPin, SpiTransfer, emit, h.cs_eq]
  · rw [hcount]
    simp [sampleStep, sampleBody, TouchIsTouched, HAL_GPIO_ReadPin, SpiTransfer, emit, h.xfers_eq]
    omega
  · rw [hcount]
    simp [sampleStep, sampleBody, TouchIsTouched, HAL_GPIO_ReadPin, SpiTransfer, emit,
      h.pinReads_eq]
    omega
  · intro i hi
    rw [hcount] at hi
    have : (sampleStep env v).databuffer.row0 = v.databuffer.row0.set v.touch_count
        (sampleX env s0 v.touch_count) := by
      simp [sampleStep, sampleBody, SpiTransfer, sampleX, rawSample, h.xfers_eq]
    rw [this, getD_set_eq _ _ _ _ (by rw [h.len0]; exact hc)]
    by_cases hic : i = v.touch_count
    · simp [hic]
    · simp only [hic, if_false]
      exact h.row0_eq i (by omega)
  · intro i hi
    rw [hcount] at hi
    have : (sampleStep env v).databuffer.row1 = v.databuffer.row1.set v.touch_count
        (sampleY env s0 v.touch_count) := by
      simp [sampleStep, sampleBody, SpiTransfer, sampleY, rawSample, h.xfers_eq]
    rw [this, getD_set_eq _ _ _ _ (by rw [h.len1]; exact hc)]
    by_cases hic : i = v.touch_count
    · simp [hic]
    · simp only [hic, if_false]
      exact h.row1_eq i (by omega)
  · intro j hj
    rw [hcount] at hj
    exact ht j (by omega)
  · refine ⟨d ++ [Event.spi COMMAND_READ_X (env.bus v.s.xfers % 256) s0.cs,
        Event.spi 0 (env.bus (v.s.xfers + 1) % 256) s0.cs,
        Event.spi 0 (env.bus (v.s.xfers + 2) % 256) s0.cs,
        Event.spi COMMAND_READ_Y (env.bus (v.s.xfers + 3) % 256) s0.cs,
        Event.spi 0 (env.bus (v.s.xfers + 4) % 256) s0.cs,
        Event.spi 0 (env.bus (v.s.xfers + 5) % 256) s0.cs,
        Event.bufWrite 0 v.touch_count (sampleX env s0 v.touch_count),
        Event.bufWrite 1 v.touch_count (sampleY env s0 v.touch_count),
        Event.pinRead (env.pin v.s.pinReads)], ?_, ?_, ?_⟩
    · simp [sampleStep, sampleBody, TouchIsTouched, HAL_GPIO_ReadPin, SpiTransfer, emit, hd,
        h.cs_eq, sampleX, sampleY, rawSample, h.xfers_eq]
    · intro e he
      rcases List.mem_append.mp he with he | he
      · exact hev e he
      · simp only [List.mem_cons, List.mem_singleton, List.not_mem_nil, or_false] at he
        rcases he with he | he | he | he | he | he | he | he | he <;> subst he <;>
          simp [isSampleEvent, MW_HAL_TOUCH_READ_POINTS_COUNT, hc]
    · intro i hi
      rw [hcount] at hi
      by_cases hic : i = v.touch_count
      · subst hic
        exact ⟨by simp, by simp⟩
      · obtain ⟨ha, hb⟩ := hwr i (by omega)
        exact ⟨List.mem_append_left _ ha, List.mem_append_left _ hb⟩

theorem sampleLoop_succ (env : Env) (fuel : Nat) (v : Sampling) :
    sampleLoop env (fuel + 1) v =
      if ((sampleBody env v).s.pinReads |> env.pin) = GPIO_PinState.GPIO_PIN_RESET
          ∧ (sampleStep env v).touch_count < 10 then
        sampleLoop env fuel (sampleStep env v)
      else some (sampleStep env v) := by
  simp only [sampleLoop, sampleStep, TouchIsTouched, HAL_GPIO_ReadPin,
    MW_HAL_TOUCH_READ_POINTS_COUNT, Bool.and_eq_true, beq_iff_eq, decide_eq_true_eq]

/-- The sampling loop returns within ten iterations; it stops early exactly at
the first read of the pin that is not touched. -/
theorem sampleLoop_spec (env : Env) (s0 : State) :
    ∀ (fuel : Nat) (v : Sampling), SampleInv env s0 v → v.touch_count < 10 →
      (∀ j, j < v.touch_count → env.pin (s0.pinReads + j) = GPIO_PinState.GPIO_PIN_RESET) →
      10 ≤ fuel + v.touch_count →
      ∃ v', sampleLoop env fuel v = some v' ∧ SampleInv env s0 v' ∧ 0 < v'.touch_count ∧
        (v'.touch_count < 10 →
          env.pin (s0.pinReads + (v'.touch_count - 1)) = GPIO_PinState.GPIO_PIN_SET) := by
  intro fuel
  induction fuel with
  | zero => intro v _ hc _ hf; omega
  | succ f ih =>
    intro v hinv hc ht hf
    obtain ⟨hinv1, hcount⟩ := sampleStep_inv env s0 v hinv hc ht
    have hp : (sampleBody env v).s.pinReads = s0.pinReads + v.touch_count := by
      simp [sampleBody, SpiTransfer, emit, hinv.pinReads_eq]
    rw [sampleLoop_succ, hp]
    by_cases hcond : env.pin (s0.pinReads + v.touch_count) = GPIO_PinState.GPIO_PIN_RESET
        ∧ (sampleStep env v).touch_count < 10
    · rw [if_pos hcond]
      refine ih (sampleStep env v) hinv1 hcond.2 ?_ (by omega)
      intro j hj
      rw [hcount] at hj
      by_cases hjc : j = v.touch_count
      · rw [hjc]; exact hcond.1
      · exact ht j (by omega)
    · rw [if_neg hcond]
      refine ⟨_, rfl, hinv1, by omega, ?_⟩
      intro hlt
      rw [hcount]
      simp only [Nat.add_sub_cancel]
      cases hpin : env.pin (s0.pinReads + v.touch_count) with
      | GPIO_PIN_RESET => exact absurd ⟨hpin, hlt⟩ hcond
      | GPIO_PIN_SET => rfl

theorem eq_map_range_of_getD (l : List Nat) (n : Nat) (f : Nat → Nat) (hlen : l.length = n)
    (h : ∀ i, i < n → l.getD i 0 = f i) : l = (List.range n).map f := by
  apply List.ext_getElem
  · simp [hlen]
  · intro i h1 h2
    have := h i (by omega)
    simp only [List.getD_eq_getElem?_getD, List.getElem?_eq_getElem h1, Option.getD_some] at this
    simp [this]

theorem sampleInv_init (env : Env) (s : State) :
    SampleInv env (burstEntry env s)
      { databuffer := databufferInit env, touch_count := 0, s := burstEntry env s } where
  count_le := by simp
  len0 := by simp [databufferInit, MW_HAL_TOUCH_READ_POINTS_COUNT]
  len1 := by simp [databufferInit, MW_HAL_TOUCH_READ_POINTS_COUNT]
  cs_eq := rfl
  xfers_eq := rfl
  pinReads_eq := rfl
  row0_eq := by intro i hi; simp at hi
  row1_eq := by intro i hi; simp at hi
  touched := by intro j hj; simp at hj
  trace_eq := ⟨[], by simp, by simp, by intro i hi; simp at hi⟩

theorem GetPointRaw_notTouched (env : Env) (fuel x y : Nat) (s : State)
    (h : env.pin s.pinReads ≠ GPIO_PinState.GPIO_PIN_RESET) :
    GetPointRaw env fuel x y s =
      some { ret := false, x := x, y := y,
             s := { s with pinReads := s.pinReads + 1,
                           trace := s.trace ++ [Event.pinRead (env.pin s.pinReads)] } } := by
  simp [GetPointRaw, TouchIsTouched, HAL_GPIO_ReadPin, h]

/-- Outcome of `GetPointRaw` when the pin reads touched at entry: `n` samples
are taken, `d` is the trace of the sampling loop. -/
theorem GetPointRaw_touched (env : Env) (fuel x y : Nat) (s : State)
    (h : env.pin s.pinReads = GPIO_PinState.GPIO_PIN_RESET) (hfuel : 10 ≤ fuel) :
    ∃ n d, 0 < n ∧ n ≤ 10
      ∧ (∀ j, j + 1 < n → env.pin (s.pinReads + 1 + j) = GPIO_PinState.GPIO_PIN_RESET)
      ∧ (n < 10 → env.pin (s.pinReads + n) = GPIO_PinState.GPIO_PIN_SET)
      ∧ (∀ e ∈ d, isSampleEvent GPIO_PinState.GPIO_PIN_RESET e)
      ∧ (∀ i, i < n →
          Event.bufWrite 0 i (sampleX env s i) ∈ d ∧ Event.bufWrite 1 i (sampleY env s i) ∈ d)
      ∧ ((n < 10 ∧ GetPointRaw env fuel x y s =
            some { ret := false, x := x, y := y,
                   s := { pinReads := s.pinReads + 1 + n, xfers := s.xfers + 6 * n,
                          cs := GPIO_PinState.GPIO_PIN_SET,
                          trace := s.trace ++ [Event.pinRead GPIO_PinState.GPIO_PIN_RESET,
                            Event.csWrite GPIO_PinState.GPIO_PIN_RESET] ++ d
                            ++ [Event.csWrite GPIO_PinState.GPIO_PIN_SET] } })
        ∨ (n = 10 ∧ ∃ rx ry dx dy,
            List.Sorted (· ≤ ·) rx ∧ rx.Perm (burstX env s)
            ∧ List.Sorted (· ≤ ·) ry ∧ ry.Perm (burstY env s)
            ∧ (∀ e ∈ dx, isBufAccess 0 10 e) ∧ (∀ e ∈ dy, isBufAccess 1 10 e)
            ∧ GetPointRaw env fuel x y s =
              some (medianStep { row0 := rx, row1 := ry }
                { pinReads := s.pinReads + 1 + n, xfers := s.xfers + 6 * n,
                  cs := GPIO_PinState.GPIO_PIN_SET,
                  trace := s.trace ++ [Event.pinRead GPIO_PinState.GPIO_PIN_RESET,
                    Event.csWrite GPIO_PinState.GPIO_PIN_RESET] ++ d
                    ++ [Event.csWrite GPIO_PinState.GPIO_PIN_SET] ++ dx ++ dy }))) := by
  obtain ⟨v, hv, hinv, hpos, hstop⟩ := sampleLoop_spec env (burstEntry env s) fuel
    { databuffer := databufferInit env, touch_count := 0, s := burstEntry env s }
    (sampleInv_init env s) (by simp) (by intro j hj; simp at hj) (by simpa using hfuel)
  obtain ⟨d, hd, hev, hwr⟩ := hinv.trace_eq
  have hpin : (burstEntry env s).pinReads = s.pinReads + 1 := rfl
  have hxf : (burstEntry env s).xfers = s.xfers := rfl
  have hcs : (burstEntry env s).cs = GPIO_PinState.GPIO_PIN_RESET := rfl
  have htr : (burstEntry env s).trace = s.trace ++ [Event.pinRead GPIO_PinState.GPIO_PIN_RESET,
      Event.csWrite GPIO_PinState.GPIO_PIN_RESET] := by
    simp [burstEntry, CS_ON, HAL_GPIO_WritePin, TouchIsTouched, HAL_GPIO_ReadPin, h]
  have hvs : CS_OFF v.s = State.mk (s.pinReads + 1 + v.touch_count)
      (s.xfers + 6 * v.touch_count) GPIO_PinState.GPIO_PIN_SET
      (s.trace ++ [Event.pinRead GPIO_PinState.GPIO_PIN_RESET,
        Event.csWrite GPIO_PinState.GPIO_PIN_RESET] ++ d
        ++ [Event.csWrite GPIO_PinState.GPIO_PIN_SET]) := by
    simp only [CS_OFF, HAL_GPIO_WritePin, hinv.pinReads_eq, hinv.xfers_eq, hd, htr, hpin, hxf]
  have hstart : GetPointRaw env fuel x y s =
      if v.touch_count != MW_HAL_TOUCH_READ_POINTS_COUNT then
        some { ret := false, x := x, y := y, s := CS_OFF v.s }
      else
        match sortLoop 0 v.touch_count fuel fuel v.databuffer.row0 (CS_OFF v.s).trace with
        | none => none
        | some r0 =>
          match sortLoop 1 v.touch_count fuel fuel v.databuffer.row1 r0.2 with
          | none => none
          | some r1 =>
            some (medianStep { row0 := r0.1, row1 := r1.1 } { CS_OFF v.s with trace := r1.2 }) := by
    have hv' : sampleLoop env fuel
        { databuffer := databufferInit env, touch_count := 0,
          s := CS_ON (TouchIsTouched env s).2 } = some v := hv
    simp only [GetPointRaw, TouchIsTouched, HAL_GPIO_ReadPin, h, beq_self_eq_true,
      Bool.not_true, Bool.false_eq_true, if_false]
    simp only [TouchIsTouched, HAL_GPIO_ReadPin, h] at hv'
    rw [hv']
  refine ⟨v.touch_count, d, hpos, hinv.count_le, ?_, ?_, ?_, hwr, ?_⟩
  · intro j hj
    have := hinv.touched j hj
    rwa [hpin] at this
  · intro hlt
    have := hstop hlt
    rw [hpin] at this
    have e : s.pinReads + 1 + (v.touch_count - 1) = s.pinReads + v.touch_count := by omega
    rwa [e] at this
  · rw [hcs] at hev; exact hev
  · by_cases hn : v.touch_count = 10
    · right
      refine ⟨hn, ?_⟩
      have hrow0 : v.databuffer.row0 = burstX env s :=
        eq_map_range_of_getD _ 10 _ hinv.len0 (fun i hi => by
          rw [hinv.row0_eq i (by omega)]; rfl)
      have hrow1 : v.databuffer.row1 = burstY env s :=
        eq_map_range_of_getD _ 10 _ hinv.len1 (fun i hi => by
          rw [hinv.row1_eq i (by omega)]; rfl)
      obtain ⟨rx, dx, hsx, hsortx, hpermx, haccx⟩ :=
        sortLoop_spec 0 10 fuel (by omega) (by omega) fuel 0 v.databuffer.row0
          (CS_OFF v.s).trace hinv.len0 (by omega) (suffixSorted_zero _) (by omega) (by omega)
      obtain ⟨ry, dy, hsy, hsorty, hpermy, haccy⟩ :=
        sortLoop_spec 1 10 fuel (by omega) (by omega) fuel 0 v.databuffer.row1
          ((CS_OFF v.s).trace ++ dx) hinv.len1 (by omega) (suffixSorted_zero _) (by omega)
          (by omega)
      refine ⟨rx, ry, dx, dy, hsortx, hrow0 ▸ hpermx, hsorty, hrow1 ▸ hpermy, haccx, haccy, ?_⟩
      rw [hstart, hn]
      simp only [MW_HAL_TOUCH_READ_POINTS_COUNT, bne_self_eq_false, Bool.false_eq_true,
        if_false, hsx, hsy]
      rw [hvs, hn]
    · left
      refine ⟨by have := hinv.count_le; omega, ?_⟩
      rw [hstart]
      have : (v.touch_count != MW_HAL_TOUCH_READ_POINTS_COUNT) = true := by
        simp [MW_HAL_TOUCH_READ_POINTS_COUNT, hn]
      rw [if_pos this, hvs]

/-! ## Claims on the sort loops -/

/-- C9: for every content of a 10-element row of `databuffer` (either channel),
the do-while bubble sort of `GetPointRaw` returns once it is given fuel for 10
passes of 9 adjacent comparisons each, and what it returns is the row in
ascending order, a permutation of the values it started with. -/
theorem sortLoop_terminates_sorted_perm (ch inner fuel : Nat) (row : List Nat)
    (tr : List Event) (hlen : row.length = MW_HAL_TOUCH_READ_POINTS_COUNT)
    (hinner : 9 ≤ inner) (hfuel : 10 ≤ fuel) :
    ∃ row' tr', sortLoop ch MW_HAL_TOUCH_READ_POINTS_COUNT inner fuel row tr = some (row', tr')
      ∧ List.Sorted (· ≤ ·) row' ∧ row'.Perm row := by
  obtain ⟨row', d, h, hs, hp, _⟩ := sortLoop_spec ch 10 inner (by omega) (by omega) fuel 0 row
    tr hlen (by omega) (suffixSorted_zero _) (by omega) (by omega)
  exact ⟨row', tr ++ d, h, hs, hp⟩

/-- C9 at a reversed row: with ten passes of nine comparisons the row comes
back sorted; nine passes, or eight comparisons a pass, are not enough. -/
theorem sortLoop_terminates_sorted_perm_witness :
    ([9, 8, 7, 6, 5, 4, 3, 2, 1, 0].length = MW_HAL_TOUCH_READ_POINTS_COUNT ∧ 9 ≤ 9 ∧ 10 ≤ 10)
    ∧ (sortLoop 0 MW_HAL_TOUCH_READ_POINTS_COUNT 9 10 [9, 8, 7, 6, 5, 4, 3, 2, 1, 0] []).map
        (fun r => r.1) = some [0, 1, 2, 3, 4, 5, 6, 7, 8, 9]
    ∧ sortLoop 0 MW_HAL_TOUCH_READ_POINTS_COUNT 9 9 [9, 8, 7, 6, 5, 4, 3, 2, 1, 0] [] = none
    ∧ sortLoop 0 MW_HAL_TOUCH_READ_POINTS_COUNT 8 10 [9, 8, 7, 6, 5, 4, 3, 2, 1, 0] [] = none
    ∧ ∃ row' tr', sortLoop 0 MW_HAL_TOUCH_READ_POINTS_COUNT 9 10 [9, 8, 7, 6, 5, 4, 3, 2, 1, 0] []
          = some (row', tr')
        ∧ List.Sorted (· ≤ ·) row' ∧ row'.Perm [9, 8, 7, 6, 5, 4, 3, 2, 1, 0] :=
  ⟨⟨by decide, by decide, by decide⟩, by decide, by decide, by decide,
    sortLoop_terminates_sorted_perm 0 9 10 [9, 8, 7, 6, 5, 4, 3, 2, 1, 0] [] (by decide)
      (by decide) (by decide)⟩

/-! ## Arithmetic of the samples -/

theorem rawSample_lt (hi lo : Nat) : rawSample hi lo < 8192 := by
  unfold rawSample
  rw [Nat.shiftRight_eq_div_pow]
  generalize ((hi % 256) <<< 8 % 65536 ||| lo % 256) = n
  omega

theorem rawSample_eq (hi lo : Nat) : rawSample hi lo = ((hi % 256) * 256 + lo % 256) / 8 := by
  unfold rawSample
  rw [Nat.shiftRight_eq_div_pow, Nat.shiftLeft_eq]
  have h1 : hi % 256 * 2 ^ 8 % 65536 = 2 ^ 8 * (hi % 256) := by omega
  rw [h1]
  have h2 : (2 ^ 8 * (hi % 256)) ||| (lo % 256) = 2 ^ 8 * (hi % 256) + lo % 256 :=
    (Nat.mul_add_lt_is_or (Nat.mod_lt _ (by norm_num)) _).symm
  rw [h2]
  have h3 : (2 ^ 8 * (hi % 256) + lo % 256) % 65536 = 2 ^ 8 * (hi % 256) + lo % 256 := by
    omega
  rw [h3]
  congr 1
  omega

theorem burstX_lt (env : Env) (s : State) : ∀ v ∈ burstX env s, v < 8192 := by
  intro v hv
  simp only [burstX, List.mem_map] at hv
  obtain ⟨k, _, rfl⟩ := hv
  exact rawSample_lt _ _

theorem burstY_lt (env : Env) (s : State) : ∀ v ∈ burstY env s, v < 8192 := by
  intro v hv
  simp only [burstY, List.mem_map] at hv
  obtain ⟨k, _, rfl⟩ := hv
  exact rawSample_lt _ _

theorem getD_lt_of_forall (l : List Nat) (B i : Nat) (hB : 0 < B) (h : ∀ v ∈ l, v < B) :
    l.getD i 0 < B := by
  rw [List.getD_eq_getElem?_getD]
  cases hi : l[i]? with
  | none => simpa using hB
  | some v =>
    simp only [Option.getD_some]
    exact h v (List.getElem?_mem hi)

theorem eq_insertionSort_of_sorted_perm (rx xs : List Nat) (hs : List.Sorted (· ≤ ·) rx)
    (hp : rx.Perm xs) : rx = xs.insertionSort (· ≤ ·) :=
  List.eq_of_perm_of_sorted (hp.trans (List.perm_insertionSort _ xs).symm) hs
    (List.sorted_insertionSort _ xs)

/-- The median step on a sorted row yields the mean of the two middle order
statistics; nothing wraps. -/
theorem median_eq (rx xs : List Nat) (hs : List.Sorted (· ≤ ·) rx) (hp : rx.Perm xs)
    (hlt : ∀ v ∈ xs, v < 8192) :
    ((rx.getD 4 0 + rx.getD 5 0) % 4294967296 / 2) % 65536
      = (orderStatistic xs 5 + orderStatistic xs 6) / 2
    ∧ rx.getD 4 0 < 8192 ∧ rx.getD 5 0 < 8192 := by
  have hlt' : ∀ v ∈ rx, v < 8192 := fun v hv => hlt v (hp.subset hv)
  have h4 := getD_lt_of_forall rx 8192 4 (by omega) hlt'
  have h5 := getD_lt_of_forall rx 8192 5 (by omega) hlt'
  refine ⟨?_, h4, h5⟩
  unfold orderStatistic
  rw [← eq_insertionSort_of_sorted_perm rx xs hs hp]
  simp only [Nat.add_one_sub_one]
  omega

/-! ## Events of the phases of `GetPointRaw` -/

theorem inBounds_of_isSampleEvent (cs : GPIO_PinState) (e : Event) (h : isSampleEvent cs e) :
    inBounds e := by
  cases e <;> simp_all [isSampleEvent, inBounds]

theorem not_isLoadOrStore_of_isSampleEvent (cs : GPIO_PinState) (e : Event)
    (h : isSampleEvent cs e) : ¬ isLoadOrStore e := by
  cases e <;> simp_all [isSampleEvent, isLoadOrStore]

theorem not_isBufRead_of_isSampleEvent (cs : GPIO_PinState) (e : Event)
    (h : isSampleEvent cs e) : ¬ isBufRead e := by
  cases e <;> simp_all [isSampleEvent, isBufRead]

theorem isFilterEvent_of_isBufAccess (ch : Nat) (hch : ch < 2) (e : Event)
    (h : isBufAccess ch 10 e) : isFilterEvent e := by
  cases e <;> simp_all [isBufAccess, isFilterEvent, MW_HAL_TOUCH_READ_POINTS_COUNT]

theorem inBounds_of_isFilterEvent (e : Event) (h : isFilterEvent e) : inBounds e := by
  cases e <;> simp_all [isFilterEvent, inBounds]

theorem orderStatistic_perm (xs ys : List Nat) (k : Nat) (h : xs.Perm ys) :
    orderStatistic xs k = orderStatistic ys k := by
  unfold orderStatistic
  have : xs.insertionSort (· ≤ ·) = ys.insertionSort (· ≤ ·) :=
    List.eq_of_perm_of_sorted
      (((List.perm_insertionSort _ xs).trans h).trans (List.perm_insertionSort _ ys).symm)
      (List.sorted_insertionSort _ xs) (List.sorted_insertionSort _ ys)
  rw [this]

/-- A successful `GetPointRaw` returns the mean of the two middle order
statistics of each channel of the burst. -/
theorem GetPointRaw_success (env : Env) (fuel x y : Nat) (s : State) (r : RawResult)
    (hfuel : 10 ≤ fuel) (hr : GetPointRaw env fuel x y s = some r) (hret : r.ret = true) :
    r.x = (orderStatistic (burstX env s) 5 + orderStatistic (burstX env s) 6) / 2
    ∧ r.y = (orderStatistic (burstY env s) 5 + orderStatistic (burstY env s) 6) / 2 := by
  by_cases h : env.pin s.pinReads = GPIO_PinState.GPIO_PIN_RESET
  · obtain ⟨n, d, _, _, _, _, _, _, hcase⟩ := GetPointRaw_touched env fuel x y s h hfuel
    rcases hcase with ⟨_, hr'⟩ | ⟨_, rx, ry, dx, dy, hsx, hpx, hsy, hpy, _, _, hr'⟩
    · rw [hr] at hr'
      cases hr'
      simp at hret
    · rw [hr] at hr'
      cases hr'
      exact ⟨(median_eq rx _ hsx hpx (burstX_lt env s)).1,
        (median_eq ry _ hsy hpy (burstY_lt env s)).1⟩
  · rw [GetPointRaw_notTouched env fuel x y s h] at hr
    cases hr
    simp at hret

theorem GetPointRaw_isSome (env : Env) (fuel x y : Nat) (s : State) (hfuel : 10 ≤ fuel) :
    ∃ r, GetPointRaw env fuel x y s = some r := by
  by_cases h : env.pin s.pinReads = GPIO_PinState.GPIO_PIN_RESET
  · obtain ⟨n, d, _, _, _, _, _, _, hcase⟩ := GetPointRaw_touched env fuel x y s h hfuel
    rcases hcase with ⟨_, hr'⟩ | ⟨_, rx, ry, dx, dy, _, _, _, _, _, _, hr'⟩
    · exact ⟨_, hr'⟩
    · exact ⟨_, hr'⟩
  · exact ⟨_, GetPointRaw_notTouched env fuel x y s h⟩

/-- With the pin touched at entry and at the nine checks that follow,
`GetPointRaw` succeeds. -/
theorem GetPointRaw_ret_of_touched (env : Env) (fuel x y : Nat) (s : State)
    (hfuel : 10 ≤ fuel)
    (hpin : ∀ j, j < 10 → env.pin (s.pinReads + j) = GPIO_PinState.GPIO_PIN_RESET) :
    ∃ r, GetPointRaw env fuel x y s = some r ∧ r.ret = true := by
  obtain ⟨n, d, hpos, _, _, hstop, _, _, hcase⟩ :=
    GetPointRaw_touched env fuel x y s (hpin 0 (by omega)) hfuel
  rcases hcase with ⟨hlt, _⟩ | ⟨_, rx, ry, dx, dy, _, _, _, _, _, _, hr⟩
  · have h1 := hstop hlt
    rw [hpin n hlt] at h1
    cases h1
  · exact ⟨_, hr, rfl⟩

theorem rawSample_of_word (v : Nat) (hv : v < 8192) :
    rawSample (v * 8 / 256) (v * 8 % 256) = v := by
  rw [rawSample_eq]
  omega

theorem burstX_envOfBurst (xs ys : List Nat) (hx : xs.length = 10) (hxs : ∀ v ∈ xs, v < 8192) :
    burstX (envOfBurst xs ys) idleState = xs := by
  symm
  apply eq_map_range_of_getD xs 10 _ hx
  intro i hi
  have h1 : (6 * i + 1) % 6 = 1 := by omega
  have h2 : (6 * i + 2) % 6 = 2 := by omega
  have d1 : (6 * i + 1) / 6 = i := by omega
  have d2 : (6 * i + 2) / 6 = i := by omega
  simp only [sampleX, envOfBurst, idleState, Nat.zero_add, h1, h2, d1, d2, if_true]
  exact (rawSample_of_word _ (getD_lt_of_forall xs 8192 i (by omega) hxs)).symm

theorem burstY_envOfBurst (xs ys : List Nat) (hy : ys.length = 10) (hys : ∀ v ∈ ys, v < 8192) :
    burstY (envOfBurst xs ys) idleState = ys := by
  symm
  apply eq_map_range_of_getD ys 10 _ hy
  intro i hi
  have h1 : (6 * i + 4) % 6 = 4 := by omega
  have h2 : (6 * i + 5) % 6 = 5 := by omega
  have d1 : (6 * i + 4) / 6 = i := by omega
  have d2 : (6 * i + 5) / 6 = i := by omega
  have e : sampleY (envOfBurst xs ys) idleState i
      = rawSample (ys.getD i 0 * 8 / 256) (ys.getD i 0 * 8 % 256) := by
    simp [sampleY, envOfBurst, idleState, h1, h2, d1, d2]
  rw [e]
  exact (rawSample_of_word _ (getD_lt_of_forall ys 8192 i (by omega) hys)).symm

/-! ## Claims on `GetPointRaw` -/

/-- C1: let `xs`, `ys` be ten X and ten Y samples, each a 16-bit word shifted
right by 3 (below `2^13`), duplicates allowed.  Some call of `GetPointRaw`
samples exactly this burst and succeeds; and every successful call whose burst
is `xs`, `ys` in any order writes `*x = (a + b) / 2` (truncating) with `a`, `b`
the 5th and 6th smallest of `xs`, and `*y` the same function of `ys` alone. -/
theorem GetPointRaw_median (xs ys : List Nat)
    (hx : xs.length = MW_HAL_TOUCH_READ_POINTS_COUNT)
    (hy : ys.length = MW_HAL_TOUCH_READ_POINTS_COUNT)
    (hxs : ∀ v ∈ xs, v < 8192) (hys : ∀ v ∈ ys, v < 8192) :
    (∃ env r, burstX env idleState = xs ∧ burstY env idleState = ys
        ∧ GetPointRaw env 10 0 0 idleState = some r ∧ r.ret = true)
    ∧ ∀ (env : Env) (fuel x y : Nat) (s : State) (r : RawResult),
        10 ≤ fuel → (burstX env s).Perm xs → (burstY env s).Perm ys →
        GetPointRaw env fuel x y s = some r → r.ret = true →
        r.x = (orderStatistic xs 5 + orderStatistic xs 6) / 2
        ∧ r.y = (orderStatistic ys 5 + orderStatistic ys 6) / 2 := by
  constructor
  · obtain ⟨r, hr, hret⟩ := GetPointRaw_ret_of_touched (envOfBurst xs ys) 10 0 0 idleState
      (by omega) (fun _ _ => rfl)
    exact ⟨envOfBurst xs ys, r, burstX_envOfBurst xs ys hx hxs, burstY_envOfBurst xs ys hy hys,
      hr, hret⟩
  · intro env fuel x y s r hfuel hpx hpy hr hret
    obtain ⟨h1, h2⟩ := GetPointRaw_success env fuel x y s r hfuel hr hret
    rw [h1, h2, orderStatistic_perm _ _ 5 hpx, orderStatistic_perm _ _ 6 hpx,
      orderStatistic_perm _ _ 5 hpy, orderStatistic_perm _ _ 6 hpy]
    exact ⟨rfl, rfl⟩

/-- C1 at a burst with duplicates and out of order: the 5th and 6th smallest X
samples are 400 and 500, the point written is (450, 35); the same burst fed in
another order gives the same point. -/
theorem GetPointRaw_median_witness :
    ([900, 100, 500, 400, 400, 8191, 0, 700, 300, 600].length = MW_HAL_TOUCH_READ_POINTS_COUNT
      ∧ [30, 30, 30, 40, 40, 40, 10, 20, 50, 60].length = MW_HAL_TOUCH_READ_POINTS_COUNT)
    ∧ orderStatistic [900, 100, 500, 400, 400, 8191, 0, 700, 300, 600] 5 = 400
    ∧ orderStatistic [900, 100, 500, 400, 400, 8191, 0, 700, 300, 600] 6 = 500
    ∧ (GetPointRaw (envOfBurst [900, 100, 500, 400, 400, 8191, 0, 700, 300, 600]
          [30, 30, 30, 40, 40, 40, 10, 20, 50, 60]) 10 0 0 idleState).map
        (fun r => (r.ret, r.x, r.y)) = some (true, 450, 35)
    ∧ (GetPointRaw (envOfBurst [0, 100, 300, 400, 400, 500, 600, 700, 900, 8191]
          [60, 50, 40, 40, 40, 30, 30, 30, 20, 10]) 10 0 0 idleState).map
        (fun r => (r.ret, r.x, r.y)) = some (true, 450, 35)
    ∧ (∃ env r, burstX env idleState = [900, 100, 500, 400, 400, 8191, 0, 700, 300, 600]
        ∧ burstY env idleState = [30, 30, 30, 40, 40, 40, 10, 20, 50, 60]
        ∧ GetPointRaw env 10 0 0 idleState = some r ∧ r.ret = true)
    ∧ ∀ (env : Env) (fuel x y : Nat) (s : State) (r : RawResult),
        10 ≤ fuel → (burstX env s).Perm [900, 100, 500, 400, 400, 8191, 0, 700, 300, 600] →
        (burstY env s).Perm [30, 30, 30, 40, 40, 40, 10, 20, 50, 60] →
        GetPointRaw env fuel x y s = some r → r.ret = true →
        r.x = (orderStatistic [900, 100, 500, 400, 400, 8191, 0, 700, 300, 600] 5
                + orderStatistic [900, 100, 500, 400, 400, 8191, 0, 700, 300, 600] 6) / 2
        ∧ r.y = (orderStatistic [30, 30, 30, 40, 40, 40, 10, 20, 50, 60] 5
                + orderStatistic [30, 30, 30, 40, 40, 40, 10, 20, 50, 60] 6) / 2 :=
  ⟨⟨by decide, by decide⟩, by decide, by decide, by decide, by decide,
    GetPointRaw_median [900, 100, 500, 400, 400, 8191, 0, 700, 300, 600]
      [30, 30, 30, 40, 40, 40, 10, 20, 50, 60] (by decide) (by decide) (by decide) (by decide)⟩

/-- C2: `GetPointRaw` returns true exactly when the pin read touched at entry
and at each of the nine checks made before the tenth sample, which is exactly
when ten samples (sixty transfers) were taken; when it returns false, `*x` and
`*y` keep their values and no load from `databuffer` and no store through `x`
or `y` was made, so neither sort nor median ran. -/
theorem GetPointRaw_true_iff_ten_samples (env : Env) (fuel x y : Nat) (s : State)
    (hfuel : 10 ≤ fuel) :
    ∃ r d, GetPointRaw env fuel x y s = some r ∧ r.s.trace = s.trace ++ d
      ∧ (r.ret = true ↔
          ∀ j, j < 10 → env.pin (s.pinReads + j) = GPIO_PinState.GPIO_PIN_RESET)
      ∧ (r.ret = true ↔ r.s.xfers = s.xfers + 6 * MW_HAL_TOUCH_READ_POINTS_COUNT)
      ∧ (r.ret = false → r.x = x ∧ r.y = y ∧ ∀ e ∈ d, ¬ isLoadOrStore e) := by
  by_cases h : env.pin s.pinReads = GPIO_PinState.GPIO_PIN_RESET
  · obtain ⟨n, d, hpos, hle, htouched, hstop, hev, _, hcase⟩ :=
      GetPointRaw_touched env fuel x y s h hfuel
    rcases hcase with ⟨hlt, hr⟩ | ⟨hn, rx, ry, dx, dy, _, _, _, _, _, _, hr⟩
    · refine ⟨_, [Event.pinRead GPIO_PinState.GPIO_PIN_RESET,
          Event.csWrite GPIO_PinState.GPIO_PIN_RESET] ++ d
          ++ [Event.csWrite GPIO_PinState.GPIO_PIN_SET], hr, by simp, ?_, ?_, ?_⟩
      · simp only [Bool.false_eq_true, false_iff, not_forall]
        refine ⟨n, hlt, ?_⟩
        rw [hstop hlt]
        decide
      · simp only [Bool.false_eq_true, false_iff, MW_HAL_TOUCH_READ_POINTS_COUNT]
        omega
      · intro _
        refine ⟨rfl, rfl, ?_⟩
        intro e he
        simp only [List.mem_append, List.mem_cons, List.mem_singleton, List.not_mem_nil,
          or_false] at he
        rcases he with ((he | he) | he) | he
        · subst he; simp [isLoadOrStore]
        · subst he; simp [isLoadOrStore]
        · exact not_isLoadOrStore_of_isSampleEvent _ e (hev e he)
        · subst he; simp [isLoadOrStore]
    · refine ⟨_, [Event.pinRead GPIO_PinState.GPIO_PIN_RESET,
          Event.csWrite GPIO_PinState.GPIO_PIN_RESET] ++ d
          ++ [Event.csWrite GPIO_PinState.GPIO_PIN_SET] ++ dx ++ dy
          ++ [Event.bufRead 0 4 (rx.getD 4 0), Event.bufRead 0 5 (rx.getD 5 0),
              Event.storeX (((rx.getD 4 0 + rx.getD 5 0) % 4294967296 / 2) % 65536)]
          ++ [Event.bufRead 1 4 (ry.getD 4 0), Event.bufRead 1 5 (ry.getD 5 0),
              Event.storeY (((ry.getD 4 0 + ry.getD 5 0) % 4294967296 / 2) % 65536)],
          hr, ?_, ?_, ?_, ?_⟩
      · simp [medianStep]
      · simp only [medianStep, true_iff]
        intro j hj
        cases j with
        | zero => exact h
        | succ j =>
          have := htouched j (by omega)
          rwa [show s.pinReads + 1 + j = s.pinReads + (j + 1) by omega] at this
      · simp [medianStep, hn, MW_HAL_TOUCH_READ_POINTS_COUNT]
      · intro hf
        simp [medianStep] at hf
  · refine ⟨_, [Event.pinRead (env.pin s.pinReads)], GetPointRaw_notTouched env fuel x y s h,
      rfl, ?_, ?_, ?_⟩
    · simp only [Bool.false_eq_true, false_iff, not_forall]
      exact ⟨0, by omega, h⟩
    · simp [MW_HAL_TOUCH_READ_POINTS_COUNT]
    · intro _
      refine ⟨rfl, rfl, ?_⟩
      intro e he
      simp only [List.mem_singleton] at he
      subst he
      simp [isLoadOrStore]

/-- C2 at a touch lifted after the fourth sample: false, `*x` and `*y` keep the
values 111 and 222 they had, twenty-four transfers were made. -/
theorem GetPointRaw_true_iff_ten_samples_witness :
    10 ≤ 10
    ∧ (GetPointRaw envLifted 10 111 222 idleState).map (fun r => (r.ret, r.x, r.y, r.s.xfers))
        = some (false, 111, 222, 24)
    ∧ ∃ r d, GetPointRaw envLifted 10 111 222 idleState = some r
      ∧ r.s.trace = idleState.trace ++ d
      ∧ (r.ret = true ↔
          ∀ j, j < 10 → envLifted.pin (idleState.pinReads + j) = GPIO_PinState.GPIO_PIN_RESET)
      ∧ (r.ret = true ↔ r.s.xfers = idleState.xfers + 6 * MW_HAL_TOUCH_READ_POINTS_COUNT)
      ∧ (r.ret = false → r.x = 111 ∧ r.y = 222 ∧ ∀ e ∈ d, ¬ isLoadOrStore e) :=
  ⟨by decide, by decide, GetPointRaw_true_iff_ten_samples envLifted 10 111 222 idleState
    (by decide)⟩

/-- C5 as stated fails: entered with the chip-select pin low (controller
selected) while the panel is not touched, `GetPointRaw` returns false without
ever writing the pin, which is still low when the call returns. -/
theorem GetPointRaw_chip_select_counterexample :
    selectedState.cs = GPIO_PinState.GPIO_PIN_RESET
    ∧ (GetPointRaw envIdle 10 0 0 selectedState).map (fun r => (r.ret, r.s.cs, r.s.trace))
        = some (false, GPIO_PinState.GPIO_PIN_RESET,
            [Event.pinRead GPIO_PinState.GPIO_PIN_SET]) :=
  ⟨by decide, by decide⟩

/-- C5, amended: a call that finds the panel not touched at entry makes one pin
read and nothing else, so the chip-select pin keeps the level it had; a call
that finds it touched drives the pin low before the first transfer and high
after the last, every transfer is made while it is low, the pin is not written
in between, and it is high when the call returns, whether ten samples were
taken or not. -/
theorem GetPointRaw_chip_select (env : Env) (fuel x y : Nat) (s : State) (hfuel : 10 ≤ fuel) :
    ∃ r d, GetPointRaw env fuel x y s = some r ∧ r.s.trace = s.trace ++ d
      ∧ (env.pin s.pinReads ≠ GPIO_PinState.GPIO_PIN_RESET →
          r.ret = false ∧ r.s.cs = s.cs ∧ d = [Event.pinRead (env.pin s.pinReads)])
      ∧ (env.pin s.pinReads = GPIO_PinState.GPIO_PIN_RESET →
          r.s.cs = GPIO_PinState.GPIO_PIN_SET
          ∧ ∃ mid rest,
              d = Event.pinRead GPIO_PinState.GPIO_PIN_RESET
                    :: Event.csWrite GPIO_PinState.GPIO_PIN_RESET
                    :: (mid ++ Event.csWrite GPIO_PinState.GPIO_PIN_SET :: rest)
              ∧ (∀ e ∈ mid, isSampleEvent GPIO_PinState.GPIO_PIN_RESET e)
              ∧ (∀ e ∈ rest, isFilterEvent e)) := by
  by_cases h : env.pin s.pinReads = GPIO_PinState.GPIO_PIN_RESET
  · obtain ⟨n, d, hpos, hle, htouched, hstop, hev, _, hcase⟩ :=
      GetPointRaw_touched env fuel x y s h hfuel
    rcases hcase with ⟨hlt, hr⟩ | ⟨hn, rx, ry, dx, dy, _, _, _, _, hax, hay, hr⟩
    · refine ⟨_, [Event.pinRead GPIO_PinState.GPIO_PIN_RESET,
          Event.csWrite GPIO_PinState.GPIO_PIN_RESET] ++ d
          ++ [Event.csWrite GPIO_PinState.GPIO_PIN_SET], hr, by simp, fun hne => absurd h hne,
          fun _ => ⟨rfl, d, [], by simp, hev, by simp⟩⟩
    · refine ⟨_, [Event.pinRead GPIO_PinState.GPIO_PIN_RESET,
          Event.csWrite GPIO_PinState.GPIO_PIN_RESET] ++ d
          ++ [Event.csWrite GPIO_PinState.GPIO_PIN_SET] ++ dx ++ dy
          ++ [Event.bufRead 0 4 (rx.getD 4 0), Event.bufRead 0 5 (rx.getD 5 0),
              Event.storeX (((rx.getD 4 0 + rx.getD 5 0) % 4294967296 / 2) % 65536)]
          ++ [Event.bufRead 1 4 (ry.getD 4 0), Event.bufRead 1 5 (ry.getD 5 0),
              Event.storeY (((ry.getD 4 0 + ry.getD 5 0) % 4294967296 / 2) % 65536)],
          hr, by simp [medianStep], fun hne => absurd h hne, fun _ => ⟨rfl, d,
            dx ++ dy
            ++ [Event.bufRead 0 4 (rx.getD 4 0), Event.bufRead 0 5 (rx.getD 5 0),
                Event.storeX (((rx.getD 4 0 + rx.getD 5 0) % 4294967296 / 2) % 65536)]
            ++ [Event.bufRead 1 4 (ry.getD 4 0), Event.bufRead 1 5 (ry.getD 5 0),
                Event.storeY (((ry.getD 4 0 + ry.getD 5 0) % 4294967296 / 2) % 65536)],
            by simp, hev, ?_⟩⟩
      intro e he
      simp only [List.mem_append, List.mem_cons, List.mem_singleton, List.not_mem_nil,
        or_false] at he
      rcases he with ((he | he) | (he | he | he)) | (he | he | he)
      · exact isFilterEvent_of_isBufAccess 0 (by omega) e (hax e he)
      · exact isFilterEvent_of_isBufAccess 1 (by omega) e (hay e he)
      all_goals (subst he; simp [isFilterEvent, MW_HAL_TOUCH_READ_POINTS_COUNT])
  · exact ⟨_, [Event.pinRead (env.pin s.pinReads)], GetPointRaw_notTouched env fuel x y s h,
      rfl, fun _ => ⟨rfl, rfl, rfl⟩, fun he => absurd he h⟩

/-- C5, amended, at a held touch entered with the controller selected: the pin
is high on return. -/
theorem GetPointRaw_chip_select_witness :
    10 ≤ 10
    ∧ (GetPointRaw envHeld 10 0 0 selectedState).map (fun r => (r.ret, r.s.cs))
        = some (true, GPIO_PinState.GPIO_PIN_SET)
    ∧ ∃ r d, GetPointRaw envHeld 10 0 0 selectedState = some r
      ∧ r.s.trace = selectedState.trace ++ d
      ∧ (envHeld.pin selectedState.pinReads ≠ GPIO_PinState.GPIO_PIN_RESET →
          r.ret = false ∧ r.s.cs = selectedState.cs
          ∧ d = [Event.pinRead (envHeld.pin selectedState.pinReads)])
      ∧ (envHeld.pin selectedState.pinReads = GPIO_PinState.GPIO_PIN_RESET →
          r.s.cs = GPIO_PinState.GPIO_PIN_SET
          ∧ ∃ mid rest,
              d = Event.pinRead GPIO_PinState.GPIO_PIN_RESET
                    :: Event.csWrite GPIO_PinState.GPIO_PIN_RESET
                    :: (mid ++ Event.csWrite GPIO_PinState.GPIO_PIN_SET :: rest)
              ∧ (∀ e ∈ mid, isSampleEvent GPIO_PinState.GPIO_PIN_RESET e)
              ∧ (∀ e ∈ rest, isFilterEvent e)) :=
  ⟨by decide, by decide, GetPointRaw_chip_select envHeld 10 0 0 selectedState (by decide)⟩

/-- C8 as stated fails: with every bus byte `0xFF` each raw sample is
`0xFFFF >> 3 = 8191` and `GetPointRaw` returns the point `(8191, 8191)`, whose
coordinates are not below 512. -/
theorem GetPointRaw_raw_range_counterexample :
    rawSample 255 255 = 8191
    ∧ (GetPointRaw envAllOnes 10 0 0 idleState).map (fun r => (r.ret, r.x, r.y))
        = some (true, 8191, 8191)
    ∧ ¬ (8191 < 512) :=
  ⟨by decide, by decide, by decide⟩

/-- C8, amended: sample `k` of a burst is assembled from the second and third
byte (X) and the fifth and sixth byte (Y) of its six transfers as
`((hi << 8) | lo) >> 3` in 16 bits, that value is what is stored in
`databuffer`, it is below `2^13 = 8192`, and so is every coordinate
`GetPointRaw` returns. -/
theorem GetPointRaw_raw_range (env : Env) (fuel x y : Nat) (s : State) (hfuel : 10 ≤ fuel) :
    ∃ r, GetPointRaw env fuel x y s = some r
      ∧ (∀ k, s.xfers + 6 * k < r.s.xfers →
          Event.bufWrite 0 k
              ((((env.bus (s.xfers + 6 * k + 1) % 256) <<< 8
                  ||| (env.bus (s.xfers + 6 * k + 2) % 256)) % 65536) >>> 3) ∈ r.s.trace
          ∧ Event.bufWrite 1 k
              ((((env.bus (s.xfers + 6 * k + 4) % 256) <<< 8
                  ||| (env.bus (s.xfers + 6 * k + 5) % 256)) % 65536) >>> 3) ∈ r.s.trace)
      ∧ (∀ hi lo, (((hi % 256) <<< 8 ||| (lo % 256)) % 65536) >>> 3 < 8192)
      ∧ (r.ret = true → r.x < 8192 ∧ r.y < 8192) := by
  have hraw : ∀ hi lo, (((hi % 256) <<< 8 ||| (lo % 256)) % 65536) >>> 3 = rawSample hi lo := by
    intro hi lo
    unfold rawSample
    have : (hi % 256) <<< 8 % 65536 = (hi % 256) <<< 8 := by
      rw [Nat.shiftLeft_eq]; omega
    rw [this]
  have hlt : ∀ hi lo, (((hi % 256) <<< 8 ||| (lo % 256)) % 65536) >>> 3 < 8192 := by
    intro hi lo; rw [hraw]; exact rawSample_lt hi lo
  simp only [hraw]
  by_cases h : env.pin s.pinReads = GPIO_PinState.GPIO_PIN_RESET
  · obtain ⟨n, d, hpos, hle, htouched, hstop, hev, hwr, hcase⟩ :=
      GetPointRaw_touched env fuel x y s h hfuel
    rcases hcase with ⟨hlt', hr⟩ | ⟨hn, rx, ry, dx, dy, hsx, hpx, hsy, hpy, _, _, hr⟩
    · refine ⟨_, hr, ?_, fun hi lo => rawSample_lt hi lo, by simp⟩
      intro k hk
      obtain ⟨h0, h1⟩ := hwr k (by simp only at hk; omega)
      constructor
      · simp only [List.mem_append]
        exact Or.inl (Or.inr h0)
      · simp only [List.mem_append]
        exact Or.inl (Or.inr h1)
    · have mx := median_eq rx _ hsx hpx (burstX_lt env s)
      have my := median_eq ry _ hsy hpy (burstY_lt env s)
      refine ⟨_, hr, ?_, fun hi lo => rawSample_lt hi lo, fun _ => ?_⟩
      · intro k hk
        obtain ⟨h0, h1⟩ := hwr k (by simp only [medianStep] at hk; omega)
        constructor
        · simp only [medianStep, List.mem_append]
          exact Or.inl (Or.inl (Or.inl (Or.inl (Or.inl (Or.inr h0)))))
        · simp only [medianStep, List.mem_append]
          exact Or.inl (Or.inl (Or.inl (Or.inl (Or.inl (Or.inr h1)))))
      · simp only [medianStep]
        have := mx.2.1
        have := mx.2.2
        have := my.2.1
        have := my.2.2
        constructor <;> omega
  · refine ⟨_, GetPointRaw_notTouched env fuel x y s h, ?_, fun hi lo => rawSample_lt hi lo,
      by simp⟩
    intro k hk
    simp only at hk
    omega

/-- C8, amended, at a held touch. -/
theorem GetPointRaw_raw_range_witness :
    10 ≤ 10
    ∧ ∃ r, GetPointRaw envHeld 10 0 0 idleState = some r
      ∧ (∀ k, idleState.xfers + 6 * k < r.s.xfers →
          Event.bufWrite 0 k
              ((((envHeld.bus (idleState.xfers + 6 * k + 1) % 256) <<< 8
                  ||| (envHeld.bus (idleState.xfers + 6 * k + 2) % 256)) % 65536) >>> 3)
            ∈ r.s.trace
          ∧ Event.bufWrite 1 k
              ((((envHeld.bus (idleState.xfers + 6 * k + 4) % 256) <<< 8
                  ||| (envHeld.bus (idleState.xfers + 6 * k + 5) % 256)) % 65536) >>> 3)
            ∈ r.s.trace)
      ∧ (∀ hi lo, (((hi % 256) <<< 8 ||| (lo % 256)) % 65536) >>> 3 < 8192)
      ∧ (r.ret = true → r.x < 8192 ∧ r.y < 8192) :=
  ⟨by decide, GetPointRaw_raw_range envHeld 10 0 0 idleState (by decide)⟩

/-- C10: in every call of `GetPointRaw` each access to `databuffer` has its row
below 2 and its index below 10; a call that returns false loads nothing from
it; a call that returns true stored all twenty slots before its first load,
ends with the loads of indices 4 and 5 of each row, and the two values it adds
are at most 8191 each, so their sum fits 16 bits. -/
theorem GetPointRaw_databuffer_in_bounds (env : Env) (fuel x y : Nat) (s : State)
    (hfuel : 10 ≤ fuel) :
    ∃ r d, GetPointRaw env fuel x y s = some r ∧ r.s.trace = s.trace ++ d
      ∧ (∀ e ∈ d, inBounds e)
      ∧ (r.ret = false → ∀ e ∈ d, ¬ isBufRead e)
      ∧ (r.ret = true → ∃ pre mid a b c e',
          d = pre ++ mid ++ [Event.bufRead 0 4 a, Event.bufRead 0 5 b, Event.storeX r.x,
                Event.bufRead 1 4 c, Event.bufRead 1 5 e', Event.storeY r.y]
          ∧ (∀ e ∈ pre, ¬ isBufRead e)
          ∧ (∀ ch i, ch < 2 → i < 10 → ∃ v, Event.bufWrite ch i v ∈ pre)
          ∧ a ≤ 8191 ∧ b ≤ 8191 ∧ c ≤ 8191 ∧ e' ≤ 8191
          ∧ a + b < 65536 ∧ c + e' < 65536) := by
  by_cases h : env.pin s.pinReads = GPIO_PinState.GPIO_PIN_RESET
  · obtain ⟨n, d, hpos, hle, htouched, hstop, hev, hwr, hcase⟩ :=
      GetPointRaw_touched env fuel x y s h hfuel
    rcases hcase with ⟨hlt, hr⟩ | ⟨hn, rx, ry, dx, dy, hsx, hpx, hsy, hpy, hax, hay, hr⟩
    · refine ⟨_, [Event.pinRead GPIO_PinState.GPIO_PIN_RESET,
          Event.csWrite GPIO_PinState.GPIO_PIN_RESET] ++ d
          ++ [Event.csWrite GPIO_PinState.GPIO_PIN_SET], hr, by simp, ?_, fun _ => ?_,
          fun hf => by simp at hf⟩
      · intro e he
        simp only [List.mem_append, List.mem_cons, List.mem_singleton, List.not_mem_nil,
          or_false] at he
        rcases he with ((he | he) | he) | he
        · subst he; simp [inBounds]
        · subst he; simp [inBounds]
        · exact inBounds_of_isSampleEvent _ e (hev e he)
        · subst he; simp [inBounds]
      · intro e he
        simp only [List.mem_append, List.mem_cons, List.mem_singleton, List.not_mem_nil,
          or_false] at he
        rcases he with ((he | he) | he) | he
        · subst he; simp [isBufRead]
        · subst he; simp [isBufRead]
        · exact not_isBufRead_of_isSampleEvent _ e (hev e he)
        · subst he; simp [isBufRead]
    · have mx := median_eq rx _ hsx hpx (burstX_lt env s)
      have my := median_eq ry _ hsy hpy (burstY_lt env s)
      refine ⟨_, [Event.pinRead GPIO_PinState.GPIO_PIN_RESET,
          Event.csWrite GPIO_PinState.GPIO_PIN_RESET] ++ d
          ++ [Event.csWrite GPIO_PinState.GPIO_PIN_SET] ++ dx ++ dy
          ++ [Event.bufRead 0 4 (rx.getD 4 0), Event.bufRead 0 5 (rx.getD 5 0),
              Event.storeX (((rx.getD 4 0 + rx.getD 5 0) % 4294967296 / 2) % 65536)]
          ++ [Event.bufRead 1 4 (ry.getD 4 0), Event.bufRead 1 5 (ry.getD 5 0),
              Event.storeY (((ry.getD 4 0 + ry.getD 5 0) % 4294967296 / 2) % 65536)],
          hr, by simp [medianStep], ?_, fun hf => by simp [medianStep] at hf, fun _ => ?_⟩
      · intro e he
        simp only [List.mem_append, List.mem_cons, List.mem_singleton, List.not_mem_nil,
          or_false] at he
        rcases he with ((((((he | he) | he) | he) | he) | he) | (he | he | he)) | (he | he | he)
        · subst he; simp [inBounds]
        · subst he; simp [inBounds]
        · exact inBounds_of_isSampleEvent _ e (hev e he)
        · subst he; simp [inBounds]
        · exact inBounds_of_isFilterEvent e (isFilterEvent_of_isBufAccess 0 (by omega) e (hax e he))
        · exact inBounds_of_isFilterEvent e (isFilterEvent_of_isBufAccess 1 (by omega) e (hay e he))
        all_goals (subst he; simp [inBounds, MW_HAL_TOUCH_READ_POINTS_COUNT])
      · refine ⟨[Event.pinRead GPIO_PinState.GPIO_PIN_RESET,
            Event.csWrite GPIO_PinState.GPIO_PIN_RESET] ++ d
            ++ [Event.csWrite GPIO_PinState.GPIO_PIN_SET], dx ++ dy,
          rx.getD 4 0, rx.getD 5 0, ry.getD 4 0, ry.getD 5 0, by simp [medianStep], ?_, ?_,
          by have := mx.2.1; omega, by have := mx.2.2; omega,
          by have := my.2.1; omega, by have := my.2.2; omega,
          by have := mx.2.1; have := mx.2.2; omega, by have := my.2.1; have := my.2.2; omega⟩
        · intro e he
          simp only [List.mem_append, List.mem_cons, List.mem_singleton, List.not_mem_nil,
            or_false] at he
          rcases he with ((he | he) | he) | he
          · subst he; simp [isBufRead]
          · subst he; simp [isBufRead]
          · exact not_isBufRead_of_isSampleEvent _ e (hev e he)
          · subst he; simp [isBufRead]
        · intro ch i hch hi
          obtain ⟨h0, h1⟩ := hwr i (by omega)
          rcases (show ch = 0 ∨ ch = 1 by omega) with rfl | rfl
          · exact ⟨_, by simp only [List.mem_append]; exact Or.inl (Or.inr h0)⟩
          · exact ⟨_, by simp only [List.mem_append]; exact Or.inl (Or.inr h1)⟩
  · refine ⟨_, [Event.pinRead (env.pin s.pinReads)], GetPointRaw_notTouched env fuel x y s h,
      rfl, ?_, fun _ => ?_, fun hf => by simp at hf⟩
    · intro e he
      simp only [List.mem_singleton] at he
      subst he
      simp [inBounds]
    · intro e he
      simp only [List.mem_singleton] at he
      subst he
      simp [isBufRead]

/-- C10 at a held touch. -/
theorem GetPointRaw_databuffer_in_bounds_witness :
    10 ≤ 10
    ∧ ∃ r d, GetPointRaw envHeld 10 0 0 idleState = some r ∧ r.s.trace = idleState.trace ++ d
      ∧ (∀ e ∈ d, inBounds e)
      ∧ (r.ret = false → ∀ e ∈ d, ¬ isBufRead e)
      ∧ (r.ret = true → ∃ pre mid a b c e',
          d = pre ++ mid ++ [Event.bufRead 0 4 a, Event.bufRead 0 5 b, Event.storeX r.x,
                Event.bufRead 1 4 c, Event.bufRead 1 5 e', Event.storeY r.y]
          ∧ (∀ e ∈ pre, ¬ isBufRead e)
          ∧ (∀ ch i, ch < 2 → i < 10 → ∃ v, Event.bufWrite ch i v ∈ pre)
          ∧ a ≤ 8191 ∧ b ≤ 8191 ∧ c ≤ 8191 ∧ e' ≤ 8191
          ∧ a + b < 65536 ∧ c + e' < 65536) :=
  ⟨by decide, GetPointRaw_databuffer_in_bounds envHeld 10 0 0 idleState (by decide)⟩

/-! ## Shape of the trace of `GetPointRaw` -/

theorem isQuiet_of_isSampleEvent (cs : GPIO_PinState) (e : Event) (h : isSampleEvent cs e) :
    isQuiet e := by
  cases e <;> simp_all [isSampleEvent, isQuiet]

theorem isQuiet_of_isBufAccess (ch n : Nat) (e : Event) (h : isBufAccess ch n e) :
    isQuiet e := by
  cases e <;> simp_all [isBufAccess, isQuiet]

theorem not_isGetDisplayPoint_of_isQuiet (e : Event) (h : isQuiet e) :
    ¬ isGetDisplayPoint e := by
  cases e <;> simp_all [isGetDisplayPoint, isQuiet]

/-- A call of `GetPointRaw` that returns false leaves `*x`, `*y` alone and adds
only quiet events; one that returns true adds quiet events around its two
stores, of which the one through `y` is the last event. -/
theorem GetPointRaw_trace (env : Env) (fuel x y : Nat) (s : State) (hfuel : 10 ≤ fuel) :
    ∃ r, GetPointRaw env fuel x y s = some r
      ∧ (r.ret = false → r.x = x ∧ r.y = y
          ∧ ∃ d, r.s.trace = s.trace ++ d ∧ ∀ e ∈ d, isQuiet e)
      ∧ (r.ret = true → ∃ d1 d2,
          r.s.trace = s.trace ++ d1 ++ [Event.storeX r.x] ++ d2 ++ [Event.storeY r.y]
          ∧ (∀ e ∈ d1, isQuiet e) ∧ (∀ e ∈ d2, isQuiet e)) := by
  by_cases h : env.pin s.pinReads = GPIO_PinState.GPIO_PIN_RESET
  · obtain ⟨n, d, hpos, hle, htouched, hstop, hev, hwr, hcase⟩ :=
      GetPointRaw_touched env fuel x y s h hfuel
    rcases hcase with ⟨hlt, hr⟩ | ⟨hn, rx, ry, dx, dy, hsx, hpx, hsy, hpy, hax, hay, hr⟩
    · refine ⟨_, hr, fun _ => ⟨rfl, rfl, [Event.pinRead GPIO_PinState.GPIO_PIN_RESET,
          Event.csWrite GPIO_PinState.GPIO_PIN_RESET] ++ d
          ++ [Event.csWrite GPIO_PinState.GPIO_PIN_SET], by simp, ?_⟩,
          fun hf => by simp at hf⟩
      intro e he
      simp only [List.mem_append, List.mem_cons, List.mem_singleton, List.not_mem_nil,
        or_false] at he
      rcases he with ((he | he) | he) | he
      · subst he; simp [isQuiet]
      · subst he; simp [isQuiet]
      · exact isQuiet_of_isSampleEvent _ e (hev e he)
      · subst he; simp [isQuiet]
    · refine ⟨_, hr, fun hf => by simp [medianStep] at hf, fun _ =>
        ⟨[Event.pinRead GPIO_PinState.GPIO_PIN_RESET,
          Event.csWrite GPIO_PinState.GPIO_PIN_RESET] ++ d
          ++ [Event.csWrite GPIO_PinState.GPIO_PIN_SET] ++ dx ++ dy
          ++ [Event.bufRead 0 4 (rx.getD 4 0), Event.bufRead 0 5 (rx.getD 5 0)],
         [Event.bufRead 1 4 (ry.getD 4 0), Event.bufRead 1 5 (ry.getD 5 0)],
         by simp [medianStep], ?_, ?_⟩⟩
      · intro e he
        simp only [List.mem_append, List.mem_cons, List.mem_singleton, List.not_mem_nil,
          or_false] at he
        rcases he with (((((he | he) | he) | he) | he) | he) | (he | he)
        · subst he; simp [isQuiet]
        · subst he; simp [isQuiet]
        · exact isQuiet_of_isSampleEvent _ e (hev e he)
        · subst he; simp [isQuiet]
        · exact isQuiet_of_isBufAccess _ _ e (hax e he)
        · exact isQuiet_of_isBufAccess _ _ e (hay e he)
        · subst he; simp [isQuiet]
        · subst he; simp [isQuiet]
      · intro e he
        simp only [List.mem_cons, List.mem_singleton, List.not_mem_nil, or_false] at he
        rcases he with he | he
        · subst he; simp [isQuiet]
        · subst he; simp [isQuiet]
  · refine ⟨_, GetPointRaw_notTouched env fuel x y s h, fun _ => ⟨rfl, rfl,
      [Event.pinRead (env.pin s.pinReads)], rfl, ?_⟩, fun hf => by simp at hf⟩
    intro e he
    simp only [List.mem_singleton] at he
    subst he
    simp [isQuiet]

/-! ## Claims on `TouchGetCalibratedPoint` -/

/-- The four `if`s of `TouchGetCalibratedPoint` and the conversion to
`int16_t` clamp each coordinate on its own. -/
theorem TouchGetCalibratedPoint_of_raw {MATRIX : Type} (cal : Calibrate MATRIX)
    (matrix : MATRIX) (env : Env) (fuel : Nat) (x y : Int) (s : State) (raw : RawResult)
    (hraw : GetPointRaw env fuel (env.xy0.1 % 65536) (env.xy0.2 % 65536) s = some raw)
    (hret : raw.ret = true) :
    TouchGetCalibratedPoint cal matrix env fuel x y s =
      some { ret := true,
             x := min (max (cal.getDisplayPoint env.display_point0
                    { x := Int.ofNat raw.x, y := Int.ofNat raw.y } matrix).2.x 0) 239,
             y := min (max (cal.getDisplayPoint env.display_point0
                    { x := Int.ofNat raw.x, y := Int.ofNat raw.y } matrix).2.y 0) 319,
             s := emit (Event.getDisplayPoint { x := Int.ofNat raw.x, y := Int.ofNat raw.y })
                    raw.s } := by
  simp only [TouchGetCalibratedPoint, hraw, hret]
  generalize (cal.getDisplayPoint env.display_point0
    { x := Int.ofNat raw.x, y := Int.ofNat raw.y } matrix).2 = p
  obtain ⟨px, py⟩ := p
  simp only [beq_iff_eq, Bool.true_eq_false, if_false, Option.some.injEq,
    CalibratedResult.mk.injEq, true_and, and_true, gt_iff_lt]
  have hx : ∀ v : Int, 0 ≤ v → v ≤ 32767 → (v + 32768) % 65536 - 32768 = v := by
    intro v h0 h1; omega
  have n1 : ¬ ((239 : Int) < 0) := by decide
  have n2 : ¬ ((319 : Int) < 0) := by decide
  by_cases h1 : 239 < px <;> by_cases h2 : 319 < py <;> by_cases h3 : px < 0 <;>
    by_cases h4 : py < 0 <;>
    simp only [h1, h2, h3, h4, n1, n2, if_true, if_false, toInt16] <;>
    constructor <;> (try rw [hx _ (by omega) (by omega)]) <;> omega

theorem TouchGetCalibratedPoint_of_raw_false {MATRIX : Type} (cal : Calibrate MATRIX)
    (matrix : MATRIX) (env : Env) (fuel : Nat) (x y : Int) (s : State) (raw : RawResult)
    (hraw : GetPointRaw env fuel (env.xy0.1 % 65536) (env.xy0.2 % 65536) s = some raw)
    (hret : raw.ret = false) :
    TouchGetCalibratedPoint cal matrix env fuel x y s =
      some { ret := false, x := x, y := y, s := raw.s } := by
  simp [TouchGetCalibratedPoint, hraw, hret]

/-- C3: for every matrix and every call in which the acquisition succeeds, with
`(px, py)` the display point `getDisplayPoint` leaves for the filtered raw
point, `TouchGetCalibratedPoint` writes `*x = min (max px 0) 239` and
`*y = min (max py 0) 319`; the point written lies in `[0, 239] × [0, 319]` and
each coordinate that was in bounds is written as it is. -/
theorem TouchGetCalibratedPoint_clamp {MATRIX : Type} (cal : Calibrate MATRIX)
    (matrix : MATRIX) (env : Env) (fuel : Nat) (x y : Int) (s : State) (hfuel : 10 ≤ fuel) :
    ∃ raw r, GetPointRaw env fuel (env.xy0.1 % 65536) (env.xy0.2 % 65536) s = some raw
      ∧ TouchGetCalibratedPoint cal matrix env fuel x y s = some r
      ∧ (raw.ret = true →
          r.x = min (max (cal.getDisplayPoint env.display_point0
                  { x := Int.ofNat raw.x, y := Int.ofNat raw.y } matrix).2.x 0) 239
          ∧ r.y = min (max (cal.getDisplayPoint env.display_point0
                  { x := Int.ofNat raw.x, y := Int.ofNat raw.y } matrix).2.y 0) 319
          ∧ 0 ≤ r.x ∧ r.x ≤ 239 ∧ 0 ≤ r.y ∧ r.y ≤ 319
          ∧ (0 ≤ (cal.getDisplayPoint env.display_point0
                  { x := Int.ofNat raw.x, y := Int.ofNat raw.y } matrix).2.x →
              (cal.getDisplayPoint env.display_point0
                  { x := Int.ofNat raw.x, y := Int.ofNat raw.y } matrix).2.x ≤ 239 →
              r.x = (cal.getDisplayPoint env.display_point0
                  { x := Int.ofNat raw.x, y := Int.ofNat raw.y } matrix).2.x)
          ∧ (0 ≤ (cal.getDisplayPoint env.display_point0
                  { x := Int.ofNat raw.x, y := Int.ofNat raw.y } matrix).2.y →
              (cal.getDisplayPoint env.display_point0
                  { x := Int.ofNat raw.x, y := Int.ofNat raw.y } matrix).2.y ≤ 319 →
              r.y = (cal.getDisplayPoint env.display_point0
                  { x := Int.ofNat raw.x, y := Int.ofNat raw.y } matrix).2.y)) := by
  obtain ⟨raw, hraw⟩ := GetPointRaw_isSome env fuel (env.xy0.1 % 65536) (env.xy0.2 % 65536) s
    hfuel
  rcases Bool.eq_false_or_eq_true raw.ret with hret | hret
  · refine ⟨raw, _, hraw, TouchGetCalibratedPoint_of_raw cal matrix env fuel x y s raw hraw
      hret, fun _ => ?_⟩
    generalize (cal.getDisplayPoint env.display_point0
      { x := Int.ofNat raw.x, y := Int.ofNat raw.y } matrix).2 = p
    refine ⟨rfl, rfl, ?_, ?_, ?_, ?_, ?_, ?_⟩
    · show 0 ≤ min (max p.x 0) 239; omega
    · show min (max p.x 0) 239 ≤ 239; omega
    · show 0 ≤ min (max p.y 0) 319; omega
    · show min (max p.y 0) 319 ≤ 319; omega
    · intro h0 h1; show min (max p.x 0) 239 = p.x; omega
    · intro h0 h1; show min (max p.y 0) 319 = p.y; omega
  · exact ⟨raw, _, hraw, TouchGetCalibratedPoint_of_raw_false cal matrix env fuel x y s raw
      hraw hret, fun hf => by simp [hret] at hf⟩

/-- C3 at a held touch with a matrix that sends the raw point (3409, 3955) to
(33090, 38550): both coordinates are clamped to the panel. -/
theorem TouchGetCalibratedPoint_clamp_witness :
    10 ≤ 10
    ∧ (GetPointRaw envHeld 10 0 0 idleState).map (fun r => (r.ret, r.x, r.y))
        = some (true, 3409, 3955)
    ∧ (calibrateSpec.getDisplayPoint envHeld.display_point0 { x := 3409, y := 3955 }
        matrixTimesTen).2 = { x := 33090, y := 38550 }
    ∧ (TouchGetCalibratedPoint calibrateSpec matrixTimesTen envHeld 10 5 6 idleState).map
        (fun r => (r.ret, r.x, r.y)) = some (true, 239, 319)
    ∧ ∃ raw r, GetPointRaw envHeld 10 (envHeld.xy0.1 % 65536) (envHeld.xy0.2 % 65536) idleState
          = some raw
      ∧ TouchGetCalibratedPoint calibrateSpec matrixTimesTen envHeld 10 5 6 idleState = some r
      ∧ (raw.ret = true →
          r.x = min (max (calibrateSpec.getDisplayPoint envHeld.display_point0
                  { x := Int.ofNat raw.x, y := Int.ofNat raw.y } matrixTimesTen).2.x 0) 239
          ∧ r.y = min (max (calibrateSpec.getDisplayPoint envHeld.display_point0
                  { x := Int.ofNat raw.x, y := Int.ofNat raw.y } matrixTimesTen).2.y 0) 319
          ∧ 0 ≤ r.x ∧ r.x ≤ 239 ∧ 0 ≤ r.y ∧ r.y ≤ 319
          ∧ (0 ≤ (calibrateSpec.getDisplayPoint envHeld.display_point0
                  { x := Int.ofNat raw.x, y := Int.ofNat raw.y } matrixTimesTen).2.x →
              (calibrateSpec.getDisplayPoint envHeld.display_point0
                  { x := Int.ofNat raw.x, y := Int.ofNat raw.y } matrixTimesTen).2.x ≤ 239 →
              r.x = (calibrateSpec.getDisplayPoint envHeld.display_point0
                  { x := Int.ofNat raw.x, y := Int.ofNat raw.y } matrixTimesTen).2.x)
          ∧ (0 ≤ (calibrateSpec.getDisplayPoint envHeld.display_point0
                  { x := Int.ofNat raw.x, y := Int.ofNat raw.y } matrixTimesTen).2.y →
              (calibrateSpec.getDisplayPoint envHeld.display_point0
                  { x := Int.ofNat raw.x, y := Int.ofNat raw.y } matrixTimesTen).2.y ≤ 319 →
              r.y = (calibrateSpec.getDisplayPoint envHeld.display_point0
                  { x := Int.ofNat raw.x, y := Int.ofNat raw.y } matrixTimesTen).2.y)) :=
  ⟨by decide, by decide, by decide, by decide,
    TouchGetCalibratedPoint_clamp calibrateSpec matrixTimesTen envHeld 10 5 6 idleState
      (by decide)⟩

/-- C4: `TouchGetCalibratedPoint` returns what `GetPointRaw` returned.  When
that is false (no touch at entry, or a burst cut short) it returns in the state
`GetPointRaw` left, with no call of `getDisplayPoint` and with `*x`, `*y` as
they were; when it is true it calls `getDisplayPoint` once, on the filtered raw
point with the stored matrix, and writes the clamped result. -/
theorem TouchGetCalibratedPoint_ret {MATRIX : Type} (cal : Calibrate MATRIX)
    (matrix : MATRIX) (env : Env) (fuel : Nat) (x y : Int) (s : State) (hfuel : 10 ≤ fuel) :
    ∃ raw r, GetPointRaw env fuel (env.xy0.1 % 65536) (env.xy0.2 % 65536) s = some raw
      ∧ TouchGetCalibratedPoint cal matrix env fuel x y s = some r
      ∧ r.ret = raw.ret
      ∧ (raw.ret = false → r.x = x ∧ r.y = y ∧ r.s = raw.s
          ∧ ∃ d, r.s.trace = s.trace ++ d ∧ ∀ e ∈ d, ¬ isGetDisplayPoint e)
      ∧ (raw.ret = true →
          r.s.trace = raw.s.trace
              ++ [Event.getDisplayPoint { x := Int.ofNat raw.x, y := Int.ofNat raw.y }]
          ∧ r.x = min (max (cal.getDisplayPoint env.display_point0
                  { x := Int.ofNat raw.x, y := Int.ofNat raw.y } matrix).2.x 0) 239
          ∧ r.y = min (max (cal.getDisplayPoint env.display_point0
                  { x := Int.ofNat raw.x, y := Int.ofNat raw.y } matrix).2.y 0) 319) := by
  obtain ⟨raw, hraw, hfalse, _⟩ := GetPointRaw_trace env fuel (env.xy0.1 % 65536)
    (env.xy0.2 % 65536) s hfuel
  rcases Bool.eq_false_or_eq_true raw.ret with hret | hret
  · exact ⟨raw, _, hraw, TouchGetCalibratedPoint_of_raw cal matrix env fuel x y s raw hraw
      hret, hret.symm, fun hf => by simp [hret] at hf, fun _ => ⟨rfl, rfl, rfl⟩⟩
  · obtain ⟨_, _, d, hd, hq⟩ := hfalse hret
    exact ⟨raw, _, hraw, TouchGetCalibratedPoint_of_raw_false cal matrix env fuel x y s raw
      hraw hret, hret.symm, fun _ => ⟨rfl, rfl, rfl, d, hd,
        fun e he => not_isGetDisplayPoint_of_isQuiet e (hq e he)⟩,
      fun hf => by simp [hret] at hf⟩

/-- C4 at a touch lifted after the fourth sample: false, with `*x`, `*y` still
5 and 6; and at a held touch: true. -/
theorem TouchGetCalibratedPoint_ret_witness :
    10 ≤ 10
    ∧ (TouchGetCalibratedPoint calibrateSpec matrixTimesTen envLifted 10 5 6 idleState).map
        (fun r => (r.ret, r.x, r.y)) = some (false, 5, 6)
    ∧ (TouchGetCalibratedPoint calibrateSpec matrixIdentity envSwipe 10 5 6 idleState).map
        (fun r => (r.ret, r.x, r.y)) = some (true, 100, 100)
    ∧ ∃ raw r, GetPointRaw envLifted 10 (envLifted.xy0.1 % 65536) (envLifted.xy0.2 % 65536)
          idleState = some raw
      ∧ TouchGetCalibratedPoint calibrateSpec matrixTimesTen envLifted 10 5 6 idleState = some r
      ∧ r.ret = raw.ret
      ∧ (raw.ret = false → r.x = 5 ∧ r.y = 6 ∧ r.s = raw.s
          ∧ ∃ d, r.s.trace = idleState.trace ++ d ∧ ∀ e ∈ d, ¬ isGetDisplayPoint e)
      ∧ (raw.ret = true →
          r.s.trace = raw.s.trace
              ++ [Event.getDisplayPoint { x := Int.ofNat raw.x, y := Int.ofNat raw.y }]
          ∧ r.x = min (max (calibrateSpec.getDisplayPoint envLifted.display_point0
                  { x := Int.ofNat raw.x, y := Int.ofNat raw.y } matrixTimesTen).2.x 0) 239
          ∧ r.y = min (max (calibrateSpec.getDisplayPoint envLifted.display_point0
                  { x := Int.ofNat raw.x, y := Int.ofNat raw.y } matrixTimesTen).2.y 0) 319) :=
  ⟨by decide, by decide, by decide,
    TouchGetCalibratedPoint_ret calibrateSpec matrixTimesTen envLifted 10 5 6 idleState
      (by decide)⟩

/-! ## The waiting loops of `TouchCalibrate` -/

theorem pin_eq_set_of_ne_reset (v : GPIO_PinState) (h : v ≠ GPIO_PinState.GPIO_PIN_RESET) :
    v = GPIO_PinState.GPIO_PIN_SET := by
  cases v with
  | GPIO_PIN_RESET => exact absurd rfl h
  | GPIO_PIN_SET => rfl

/-- The loop that waits for a touch: it has read released `k` times and, when
it returned, touched once. -/
theorem whileNotTouched_trace (env : Env) :
    ∀ (fuel : Nat) (s : State),
      ∃ k, (∀ s', whileNotTouched env fuel s = Polled.returned s' →
              s'.trace = s.trace ++ List.replicate k (Event.pinRead GPIO_PinState.GPIO_PIN_SET)
                ++ [Event.pinRead GPIO_PinState.GPIO_PIN_RESET])
        ∧ (∀ s', whileNotTouched env fuel s = Polled.polling s' →
              s'.trace = s.trace
                ++ List.replicate k (Event.pinRead GPIO_PinState.GPIO_PIN_SET)) := by
  intro fuel
  induction fuel with
  | zero =>
    intro s
    refine ⟨0, ?_, ?_⟩
    · intro s' h; simp [whileNotTouched] at h
    · intro s' h
      simp only [whileNotTouched, Polled.polling.injEq] at h
      subst h; simp
  | succ f ih =>
    intro s
    by_cases hp : env.pin s.pinReads = GPIO_PinState.GPIO_PIN_RESET
    · refine ⟨0, ?_, ?_⟩
      · intro s' h
        simp only [whileNotTouched, TouchIsTouched, HAL_GPIO_ReadPin, hp, beq_self_eq_true,
          beq_iff_eq, Bool.true_eq_false, if_false, Polled.returned.injEq] at h
        subst h; simp
      · intro s' h
        simp [whileNotTouched, TouchIsTouched, HAL_GPIO_ReadPin, hp] at h
    · have hb : (env.pin s.pinReads == GPIO_PinState.GPIO_PIN_RESET) = false := by
        simpa using hp
      obtain ⟨k, hk1, hk2⟩ := ih (TouchIsTouched env s).2
      refine ⟨k + 1, ?_, ?_⟩
      · intro s' h
        simp only [whileNotTouched, TouchIsTouched, HAL_GPIO_ReadPin, hb, beq_self_eq_true,
          if_true] at h
        rw [hk1 s' h]
        simp [TouchIsTouched, HAL_GPIO_ReadPin, pin_eq_set_of_ne_reset _ hp,
          List.replicate_succ]
      · intro s' h
        simp only [whileNotTouched, TouchIsTouched, HAL_GPIO_ReadPin, hb, beq_self_eq_true,
          if_true] at h
        rw [hk2 s' h]
        simp [TouchIsTouched, HAL_GPIO_ReadPin, pin_eq_set_of_ne_reset _ hp,
          List.replicate_succ]

/-- The loop that waits for the release: it has read touched `k` times and,
when it returned, released once. -/
theorem whileTouched_trace (env : Env) :
    ∀ (fuel : Nat) (s : State),
      ∃ k, (∀ s', whileTouched env fuel s = Polled.returned s' →
              s'.trace = s.trace
                ++ List.replicate k (Event.pinRead GPIO_PinState.GPIO_PIN_RESET)
                ++ [Event.pinRead GPIO_PinState.GPIO_PIN_SET])
        ∧ (∀ s', whileTouched env fuel s = Polled.polling s' →
              s'.trace = s.trace
                ++ List.replicate k (Event.pinRead GPIO_PinState.GPIO_PIN_RESET)) := by
  intro fuel
  induction fuel with
  | zero =>
    intro s
    refine ⟨0, ?_, ?_⟩
    · intro s' h; simp [whileTouched] at h
    · intro s' h
      simp only [whileTouched, Polled.polling.injEq] at h
      subst h; simp
  | succ f ih =>
    intro s
    by_cases hp : env.pin s.pinReads = GPIO_PinState.GPIO_PIN_RESET
    · have hb : (env.pin s.pinReads == GPIO_PinState.GPIO_PIN_RESET) = true := by
        simpa using hp
      obtain ⟨k, hk1, hk2⟩ := ih (TouchIsTouched env s).2
      refine ⟨k + 1, ?_, ?_⟩
      · intro s' h
        simp only [whileTouched, TouchIsTouched, HAL_GPIO_ReadPin, hb, beq_self_eq_true,
          if_true] at h
        rw [hk1 s' h]
        simp [TouchIsTouched, HAL_GPIO_ReadPin, hp, List.replicate_succ]
      · intro s' h
        simp only [whileTouched, TouchIsTouched, HAL_GPIO_ReadPin, hb, beq_self_eq_true,
          if_true] at h
        rw [hk2 s' h]
        simp [TouchIsTouched, HAL_GPIO_ReadPin, hp, List.replicate_succ]
    · have hb : (env.pin s.pinReads == GPIO_PinState.GPIO_PIN_RESET) = false := by
        simpa using hp
      refine ⟨0, ?_, ?_⟩
      · intro s' h
        simp only [whileTouched, TouchIsTouched, HAL_GPIO_ReadPin, hb, beq_iff_eq,
          Bool.false_eq_true, if_false, Polled.returned.injEq] at h
        subst h
        simp [pin_eq_set_of_ne_reset _ hp]
      · intro s' h
        simp [whileTouched, TouchIsTouched, HAL_GPIO_ReadPin, hb] at h

/-- The loop that calls `GetPointRaw` until it succeeds: what it returns is a
successful result, and the failed calls add only quiet events. -/
theorem whileGetPointRawFails_trace (env : Env) (inner : Nat) (hinner : 10 ≤ inner) :
    ∀ (fuel x y : Nat) (s : State),
      (∀ r, whileGetPointRawFails env inner fuel x y s = Polled.returned r →
        r.ret = true ∧ ∃ d1 d2,
          r.s.trace = s.trace ++ d1 ++ [Event.storeX r.x] ++ d2 ++ [Event.storeY r.y]
          ∧ (∀ e ∈ d1, isQuiet e) ∧ (∀ e ∈ d2, isQuiet e))
      ∧ (∀ s', whileGetPointRawFails env inner fuel x y s = Polled.polling s' →
          ∃ d, s'.trace = s.trace ++ d ∧ ∀ e ∈ d, isQuiet e) := by
  intro fuel
  induction fuel with
  | zero =>
    intro x y s
    refine ⟨?_, ?_⟩
    · intro r h; simp [whileGetPointRawFails] at h
    · intro s' h
      simp only [whileGetPointRawFails, Polled.polling.injEq] at h
      subst h
      exact ⟨[], by simp, by simp⟩
  | succ f ih =>
    intro x y s
    obtain ⟨r1, hr1, hfalse, htrue⟩ := GetPointRaw_trace env inner x y s hinner
    rcases Bool.eq_false_or_eq_true r1.ret with hret | hret
    · refine ⟨?_, ?_⟩
      · intro r h
        simp only [whileGetPointRawFails, hr1, hret, beq_iff_eq, Bool.true_eq_false, if_false,
          Polled.returned.injEq] at h
        subst h
        exact ⟨hret, htrue hret⟩
      · intro s' h
        simp [whileGetPointRawFails, hr1, hret] at h
    · obtain ⟨_, _, d, hd, hq⟩ := hfalse hret
      obtain ⟨ih1, ih2⟩ := ih r1.x r1.y r1.s
      refine ⟨?_, ?_⟩
      · intro r h
        simp only [whileGetPointRawFails, hr1, hret, beq_self_eq_true, if_true] at h
        obtain ⟨hr, d1, d2, htr, hq1, hq2⟩ := ih1 r h
        refine ⟨hr, d ++ d1, d2, ?_, ?_, hq2⟩
        · rw [htr, hd]; simp
        · intro e he
          rcases List.mem_append.mp he with he | he
          · exact hq e he
          · exact hq1 e he
      · intro s' h
        simp only [whileGetPointRawFails, hr1, hret, beq_self_eq_true, if_true] at h
        obtain ⟨d', hd', hq'⟩ := ih2 s' h
        refine ⟨d ++ d', ?_, ?_⟩
        · rw [hd', hd]; simp
        · intro e he
          rcases List.mem_append.mp he with he | he
          · exact hq e he
          · exact hq' e he

/-! ## The release monitor -/

theorem heldAfter_cons_some (e : Event) (es : List Event) (h h' : Bool)
    (hs : heldAfter h (e :: es) = some h') : ∃ h2, heldAfter h2 es = some h' := by
  cases e with
  | pinRead level =>
    cases level with
    | GPIO_PIN_RESET => exact ⟨h, by simpa [heldAfter] using hs⟩
    | GPIO_PIN_SET => exact ⟨false, by simpa [heldAfter] using hs⟩
  | csWrite level => exact ⟨h, by simpa [heldAfter] using hs⟩
  | spi tx rx cs => exact ⟨h, by simpa [heldAfter] using hs⟩
  | bufWrite ch idx val => exact ⟨h, by simpa [heldAfter] using hs⟩
  | bufRead ch idx val => exact ⟨h, by simpa [heldAfter] using hs⟩
  | getDisplayPoint raw => exact ⟨h, by simpa [heldAfter] using hs⟩
  | storeX val =>
    cases h with
    | true => simp [heldAfter] at hs
    | false => exact ⟨false, by simpa [heldAfter] using hs⟩
  | storeY val =>
    cases h with
    | true => simp [heldAfter] at hs
    | false => exact ⟨true, by simpa [heldAfter] using hs⟩
  | drawCross x y length =>
    cases h with
    | true => simp [heldAfter] at hs
    | false => exact ⟨false, by simpa [heldAfter] using hs⟩
  | setCalibrationMatrix display raw =>
    cases h with
    | true => simp [heldAfter] at hs
    | false => exact ⟨false, by simpa [heldAfter] using hs⟩

theorem heldAfter_append (a : List Event) :
    ∀ (b : List Event) (h : Bool),
      heldAfter h (a ++ b) = (heldAfter h a).bind (fun h' => heldAfter h' b) := by
  induction a with
  | nil => intro b h; simp [heldAfter]
  | cons e es ih =>
    intro b h
    cases e with
    | pinRead level =>
      cases level <;> simp [heldAfter, ih]
    | csWrite level => simp [heldAfter, ih]
    | spi tx rx cs => simp [heldAfter, ih]
    | bufWrite ch idx val => simp [heldAfter, ih]
    | bufRead ch idx val => simp [heldAfter, ih]
    | getDisplayPoint raw => simp [heldAfter, ih]
    | storeX val => cases h <;> simp [heldAfter, ih]
    | storeY val => cases h <;> simp [heldAfter, ih]
    | drawCross x y length => cases h <;> simp [heldAfter, ih]
    | setCalibrationMatrix display raw => cases h <;> simp [heldAfter, ih]

theorem heldAfter_append_of (a b : List Event) (h h1 h2 : Bool)
    (ha : heldAfter h a = some h1) (hb : heldAfter h1 b = some h2) :
    heldAfter h (a ++ b) = some h2 := by
  rw [heldAfter_append, ha]
  simpa using hb

/-- Quiet events take no next step and never set the flag. -/
theorem heldAfter_quiet (d : List Event) :
    ∀ (h : Bool), (∀ e ∈ d, isQuiet e) →
      ∃ h', heldAfter h d = some h' ∧ (h = false → h' = false) := by
  induction d with
  | nil => intro h _; exact ⟨h, rfl, id⟩
  | cons e es ih =>
    intro h hq
    have hes : ∀ e ∈ es, isQuiet e := fun e he => hq e (List.mem_cons_of_mem _ he)
    have he : isQuiet e := hq e (List.mem_cons_self _ _)
    cases e with
    | pinRead level =>
      cases level with
      | GPIO_PIN_RESET => simpa [heldAfter] using ih h hes
      | GPIO_PIN_SET =>
        obtain ⟨h', h1, h2⟩ := ih false hes
        exact ⟨h', by simpa [heldAfter] using h1, fun _ => h2 rfl⟩
    | csWrite level => simpa [heldAfter] using ih h hes
    | spi tx rx cs => simpa [heldAfter] using ih h hes
    | bufWrite ch idx val => simpa [heldAfter] using ih h hes
    | bufRead ch idx val => simpa [heldAfter] using ih h hes
    | getDisplayPoint raw => simp [isQuiet] at he
    | storeX val => simp [isQuiet] at he
    | storeY val => simp [isQuiet] at he
    | drawCross x y length => simp [isQuiet] at he
    | setCalibrationMatrix display raw => simp [isQuiet] at he

theorem heldAfter_quiet_false (d : List Event) (hq : ∀ e ∈ d, isQuiet e) :
    heldAfter false d = some false := by
  obtain ⟨h', h1, h2⟩ := heldAfter_quiet d false hq
  rw [h1, h2 rfl]

theorem isQuiet_replicate_pinRead (k : Nat) (level : GPIO_PinState) :
    ∀ e ∈ List.replicate k (Event.pinRead level), isQuiet e := by
  intro e he
  rw [List.eq_of_mem_replicate he]
  simp [isQuiet]

/-- With the flag set, a next step is accepted only after a released read. -/
theorem release_of_heldAfter_true (mid : List Event) :
    ∀ (post : List Event) (e2 : Event) (h' : Bool),
      heldAfter true (mid ++ e2 :: post) = some h' → isNextStep e2 →
      Event.pinRead GPIO_PinState.GPIO_PIN_SET ∈ mid := by
  induction mid with
  | nil =>
    intro post e2 h' hs hn
    cases e2 <;> simp [isNextStep] at hn <;> simp [heldAfter] at hs
  | cons e es ih =>
    intro post e2 h' hs hn
    cases e with
    | pinRead level =>
      cases level with
      | GPIO_PIN_RESET =>
        exact List.mem_cons_of_mem _ (ih post e2 h' (by simpa [heldAfter] using hs) hn)
      | GPIO_PIN_SET => exact List.mem_cons_self _ _
    | csWrite level =>
      exact List.mem_cons_of_mem _ (ih post e2 h' (by simpa [heldAfter] using hs) hn)
    | spi tx rx cs =>
      exact List.mem_cons_of_mem _ (ih post e2 h' (by simpa [heldAfter] using hs) hn)
    | bufWrite ch idx val =>
      exact List.mem_cons_of_mem _ (ih post e2 h' (by simpa [heldAfter] using hs) hn)
    | bufRead ch idx val =>
      exact List.mem_cons_of_mem _ (ih post e2 h' (by simpa [heldAfter] using hs) hn)
    | getDisplayPoint raw =>
      exact List.mem_cons_of_mem _ (ih post e2 h' (by simpa [heldAfter] using hs) hn)
    | storeX val => simp [heldAfter] at hs
    | storeY val => simp [heldAfter] at hs
    | drawCross x y length => simp [heldAfter] at hs
    | setCalibrationMatrix display raw => simp [heldAfter] at hs

/-- A trace the monitor accepts has a released read between every stored point
and every later step. -/
theorem releaseBetween_of_heldAfter (tr : List Event) (h h' : Bool)
    (hs : heldAfter h tr = some h') : ReleaseBetween tr := by
  intro pre
  induction pre generalizing tr h with
  | nil =>
    intro mid post e1 e2 htr h1 h2
    subst htr
    cases e1 <;> simp [isStoreY] at h1
    cases h with
    | true => simp [heldAfter] at hs
    | false =>
      exact release_of_heldAfter_true mid post e2 h' (by simpa [heldAfter] using hs) h2
  | cons p pre ih =>
    intro mid post e1 e2 htr h1 h2
    subst htr
    obtain ⟨h2', hs'⟩ := heldAfter_cons_some p _ h h' hs
    exact ih _ h2' hs' mid post e1 e2 rfl h1 h2

/-! ## The three targets of `TouchCalibrate` -/

theorem heldAfter_phaseTrace (tx ty : Int) (raw : POINT_T) (seg : List Event)
    (h : PhaseTrace tx ty raw seg) : heldAfter false seg = some false := by
  obtain ⟨k1, k2, acq1, acq2, xv, yv, _, rfl, hq1, hq2⟩ := h
  obtain ⟨hk, hk1, _⟩ := heldAfter_quiet
    (List.replicate k2 (Event.pinRead GPIO_PinState.GPIO_PIN_RESET)) true
    (isQuiet_replicate_pinRead _ _)
  refine heldAfter_append_of _ _ false hk false ?_ (by cases hk <;> rfl)
  refine heldAfter_append_of _ _ false true hk ?_ hk1
  refine heldAfter_append_of _ _ false false true ?_ rfl
  refine heldAfter_append_of _ _ false false false ?_ (heldAfter_quiet_false _ hq2)
  refine heldAfter_append_of _ _ false false false ?_ rfl
  refine heldAfter_append_of _ _ false false false ?_ (heldAfter_quiet_false _ hq1)
  refine heldAfter_append_of _ _ false false false ?_ rfl
  exact heldAfter_append_of _ _ false false false rfl
    (heldAfter_quiet_false _ (isQuiet_replicate_pinRead _ _))

/-- A target that was completed: its trace has the shape `PhaseTrace`. -/
theorem calibrationPhase_returned (env : Env) (fuel : Nat) (hfuel : 10 ≤ fuel) (tx ty : Int)
    (x y : Nat) (s s' : State) (r : RawResult)
    (h : calibrationPhase env fuel tx ty x y s = Polled.returned (r, s')) :
    ∃ seg, s'.trace = s.trace ++ seg
      ∧ PhaseTrace tx ty { x := Int.ofNat r.x, y := Int.ofNat r.y } seg := by
  unfold calibrationPhase at h
  cases ha : whileNotTouched env fuel (DrawCross tx ty 40 s) with
  | polling a => simp [ha] at h
  | returned a =>
  simp only [ha] at h
  cases hb : whileGetPointRawFails env fuel fuel x y a with
  | polling b => simp [hb] at h
  | returned b =>
  simp only [hb] at h
  cases hc : whileTouched env fuel b.s with
  | polling c => simp [hc] at h
  | returned c =>
  simp only [hc, Polled.returned.injEq, Prod.mk.injEq] at h
  obtain ⟨rfl, rfl⟩ := h
  obtain ⟨k1, hk1, _⟩ := whileNotTouched_trace env fuel (DrawCross tx ty 40 s)
  obtain ⟨_, d1, d2, hd, hq1, hq2⟩ :=
    (whileGetPointRawFails_trace env fuel hfuel fuel x y a).1 b hb
  obtain ⟨k2, hk2, _⟩ := whileTouched_trace env fuel b.s
  refine ⟨[Event.drawCross tx ty 40]
      ++ List.replicate k1 (Event.pinRead GPIO_PinState.GPIO_PIN_SET)
      ++ [Event.pinRead GPIO_PinState.GPIO_PIN_RESET]
      ++ d1 ++ [Event.storeX b.x] ++ d2 ++ [Event.storeY b.y]
      ++ List.replicate k2 (Event.pinRead GPIO_PinState.GPIO_PIN_RESET)
      ++ [Event.pinRead GPIO_PinState.GPIO_PIN_SET], ?_,
    k1, k2, d1, d2, b.x, b.y, rfl, rfl, hq1, hq2⟩
  rw [hk2 c hc, hd, hk1 a ha]
  simp [DrawCross, emit]

/-- A target that is not completed: the monitor accepts what was done of it. -/
theorem calibrationPhase_polling (env : Env) (fuel : Nat) (hfuel : 10 ≤ fuel) (tx ty : Int)
    (x y : Nat) (s s' : State)
    (h : calibrationPhase env fuel tx ty x y s = Polled.polling s') :
    ∃ d hd, s'.trace = s.trace ++ d ∧ heldAfter false d = some hd := by
  unfold calibrationPhase at h
  obtain ⟨k1, hk1, hk1'⟩ := whileNotTouched_trace env fuel (DrawCross tx ty 40 s)
  cases ha : whileNotTouched env fuel (DrawCross tx ty 40 s) with
  | polling a =>
    simp only [ha, Polled.polling.injEq] at h
    subst h
    refine ⟨[Event.drawCross tx ty 40]
      ++ List.replicate k1 (Event.pinRead GPIO_PinState.GPIO_PIN_SET), false, ?_, ?_⟩
    · rw [hk1' a ha]; simp [DrawCross, emit]
    · exact heldAfter_append_of _ _ false false false rfl
        (heldAfter_quiet_false _ (isQuiet_replicate_pinRead _ _))
  | returned a =>
  simp only [ha] at h
  have hpre : heldAfter false ([Event.drawCross tx ty 40]
      ++ List.replicate k1 (Event.pinRead GPIO_PinState.GPIO_PIN_SET)
      ++ [Event.pinRead GPIO_PinState.GPIO_PIN_RESET]) = some false :=
    heldAfter_append_of _ _ false false false
      (heldAfter_append_of _ _ false false false rfl
        (heldAfter_quiet_false _ (isQuiet_replicate_pinRead _ _))) rfl
  have htra : a.trace = s.trace ++ ([Event.drawCross tx ty 40]
      ++ List.replicate k1 (Event.pinRead GPIO_PinState.GPIO_PIN_SET)
      ++ [Event.pinRead GPIO_PinState.GPIO_PIN_RESET]) := by
    rw [hk1 a ha]; simp [DrawCross, emit]
  obtain ⟨hb1, hb2⟩ := whileGetPointRawFails_trace env fuel hfuel fuel x y a
  cases hb : whileGetPointRawFails env fuel fuel x y a with
  | polling b =>
    simp only [hb, Polled.polling.injEq] at h
    subst h
    obtain ⟨d, hd, hq⟩ := hb2 b hb
    refine ⟨([Event.drawCross tx ty 40]
      ++ List.replicate k1 (Event.pinRead GPIO_PinState.GPIO_PIN_SET)
      ++ [Event.pinRead GPIO_PinState.GPIO_PIN_RESET]) ++ d, false, ?_, heldAfter_append_of _ _ false false false hpre
      (heldAfter_quiet_false _ hq)⟩
    rw [hd, htra]; simp
  | returned b =>
  simp only [hb] at h
  obtain ⟨_, d1, d2, hd, hq1, hq2⟩ := hb1 b hb
  obtain ⟨k2, _, hk2'⟩ := whileTouched_trace env fuel b.s
  cases hc : whileTouched env fuel b.s with
  | returned c => simp [hc] at h
  | polling c =>
    simp only [hc, Polled.polling.injEq] at h
    subst h
    obtain ⟨hk, hkq, _⟩ := heldAfter_quiet
      (List.replicate k2 (Event.pinRead GPIO_PinState.GPIO_PIN_RESET)) true
      (isQuiet_replicate_pinRead _ _)
    refine ⟨([Event.drawCross tx ty 40]
      ++ List.replicate k1 (Event.pinRead GPIO_PinState.GPIO_PIN_SET)
      ++ [Event.pinRead GPIO_PinState.GPIO_PIN_RESET]) ++ d1 ++ [Event.storeX b.x] ++ d2 ++ [Event.storeY b.y]
      ++ List.replicate k2 (Event.pinRead GPIO_PinState.GPIO_PIN_RESET), hk, ?_, ?_⟩
    · rw [hk2' c hc, hd, htra]; simp
    · refine heldAfter_append_of _ _ false true hk ?_ hkq
      refine heldAfter_append_of _ _ false false true ?_ rfl
      refine heldAfter_append_of _ _ false false false ?_ (heldAfter_quiet_false _ hq2)
      refine heldAfter_append_of _ _ false false false ?_ rfl
      exact heldAfter_append_of _ _ false false false hpre (heldAfter_quiet_false _ hq1)

/-- `TouchCalibrate` is its three targets one after the other, then the solve. -/
theorem TouchCalibrate_eq_phases {MATRIX : Type} (cal : Calibrate MATRIX) (matrix : MATRIX)
    (env : Env) (fuel : Nat) (s : State) :
    TouchCalibrate cal matrix env fuel s =
      match calibrationPhase env fuel 40 40 (env.xy0.1 % 65536) (env.xy0.2 % 65536) s with
      | Polled.polling s => Polled.polling s
      | Polled.returned p0 =>
      match calibrationPhase env fuel 200 40 p0.1.x p0.1.y p0.2 with
      | Polled.polling s => Polled.polling s
      | Polled.returned p1 =>
      match calibrationPhase env fuel 200 280 p1.1.x p1.1.y p1.2 with
      | Polled.polling s => Polled.polling s
      | Polled.returned p2 =>
        Polled.returned
          ((cal.setCalibrationMatrix calibrationTargets
              { p0 := { x := Int.ofNat p0.1.x, y := Int.ofNat p0.1.y },
                p1 := { x := Int.ofNat p1.1.x, y := Int.ofNat p1.1.y },
                p2 := { x := Int.ofNat p2.1.x, y := Int.ofNat p2.1.y } } matrix).2,
            emit (Event.setCalibrationMatrix calibrationTargets
              { p0 := { x := Int.ofNat p0.1.x, y := Int.ofNat p0.1.y },
                p1 := { x := Int.ofNat p1.1.x, y := Int.ofNat p1.1.y },
                p2 := { x := Int.ofNat p2.1.x, y := Int.ofNat p2.1.y } }) p2.2) := by
  unfold TouchCalibrate calibrationPhase
  simp only
  cases whileNotTouched env fuel (DrawCross 40 40 40 s) with
  | polling a => rfl
  | returned a1 =>
  simp only
  cases whileGetPointRawFails env fuel fuel (env.xy0.1 % 65536) (env.xy0.2 % 65536) a1 with
  | polling b => rfl
  | returned b1 =>
  simp only
  cases whileTouched env fuel b1.s with
  | polling c => rfl
  | returned c1 =>
  simp only
  cases whileNotTouched env fuel (DrawCross 200 40 40 c1) with
  | polling a => rfl
  | returned a2 =>
  simp only
  cases whileGetPointRawFails env fuel fuel b1.x b1.y a2 with
  | polling b => rfl
  | returned b2 =>
  simp only
  cases whileTouched env fuel b2.s with
  | polling c => rfl
  | returned c2 =>
  simp only
  cases whileNotTouched env fuel (DrawCross 200 280 40 c2) with
  | polling a => rfl
  | returned a3 =>
  simp only
  cases whileGetPointRawFails env fuel fuel b2.x b2.y a3 with
  | polling b => rfl
  | returned b3 =>
  simp only
  cases whileTouched env fuel b3.s with
  | polling c => rfl
  | returned c3 => rfl

/-- C6: in every run of `TouchCalibrate`, completed or still polling, between
the store that ends a successful acquisition and any later cross, stored point
or solve, the pin was read released: a release is observed after target `k`
before target `k + 1` is drawn and first polled and before the matrix is
solved, and no two targets take their point from one uninterrupted touch.  A
completed run is the three targets in the order (40,40), (200,40), (200,280),
each drawing its cross, polling until touched, calling `GetPointRaw` until one
call stores a point and polling until released, followed by the solve, which
receives the point stored for target `k` as raw point `k`. -/
theorem TouchCalibrate_press_release {MATRIX : Type} (cal : Calibrate MATRIX)
    (matrix : MATRIX) (env : Env) (fuel : Nat) (s : State) (hfuel : 10 ≤ fuel) :
    ∃ d, (TouchCalibrate cal matrix env fuel s).finalState.trace = s.trace ++ d
      ∧ ReleaseBetween d
      ∧ ∀ r, TouchCalibrate cal matrix env fuel s = Polled.returned r →
          ∃ raw0 raw1 raw2 seg0 seg1 seg2,
            d = seg0 ++ seg1 ++ seg2
                ++ [Event.setCalibrationMatrix
                      { p0 := { x := 40, y := 40 }, p1 := { x := 200, y := 40 },
                        p2 := { x := 200, y := 280 } }
                      { p0 := raw0, p1 := raw1, p2 := raw2 }]
            ∧ PhaseTrace 40 40 raw0 seg0 ∧ PhaseTrace 200 40 raw1 seg1
            ∧ PhaseTrace 200 280 raw2 seg2 := by
  rw [TouchCalibrate_eq_phases]
  cases h0 : calibrationPhase env fuel 40 40 (env.xy0.1 % 65536) (env.xy0.2 % 65536) s with
  | polling s0 =>
    obtain ⟨d, hd, htr, hm⟩ := calibrationPhase_polling env fuel hfuel _ _ _ _ s s0 h0
    exact ⟨d, htr, releaseBetween_of_heldAfter d false hd hm, fun r hr => by simp at hr⟩
  | returned p0 =>
  obtain ⟨r0, s0⟩ := p0
  obtain ⟨seg0, ht0, hp0⟩ := calibrationPhase_returned env fuel hfuel _ _ _ _ s s0 r0 h0
  have hm0 := heldAfter_phaseTrace _ _ _ _ hp0
  simp only
  cases h1 : calibrationPhase env fuel 200 40 r0.x r0.y s0 with
  | polling s1 =>
    obtain ⟨d, hd, htr, hm⟩ := calibrationPhase_polling env fuel hfuel _ _ _ _ s0 s1 h1
    refine ⟨seg0 ++ d, ?_, releaseBetween_of_heldAfter _ false hd
      (heldAfter_append_of _ _ false false hd hm0 hm), fun r hr => by simp at hr⟩
    simp only [Polled.finalState]
    rw [htr, ht0]; simp
  | returned p1 =>
  obtain ⟨r1, s1⟩ := p1
  obtain ⟨seg1, ht1, hp1⟩ := calibrationPhase_returned env fuel hfuel _ _ _ _ s0 s1 r1 h1
  have hm1 := heldAfter_phaseTrace _ _ _ _ hp1
  simp only
  cases h2 : calibrationPhase env fuel 200 280 r1.x r1.y s1 with
  | polling s2 =>
    obtain ⟨d, hd, htr, hm⟩ := calibrationPhase_polling env fuel hfuel _ _ _ _ s1 s2 h2
    refine ⟨seg0 ++ seg1 ++ d, ?_, releaseBetween_of_heldAfter _ false hd
      (heldAfter_append_of _ _ false false hd
        (heldAfter_append_of _ _ false false false hm0 hm1) hm),
      fun r hr => by simp at hr⟩
    simp only [Polled.finalState]
    rw [htr, ht1, ht0]; simp
  | returned p2 =>
  obtain ⟨r2, s2⟩ := p2
  obtain ⟨seg2, ht2, hp2⟩ := calibrationPhase_returned env fuel hfuel _ _ _ _ s1 s2 r2 h2
  have hm2 := heldAfter_phaseTrace _ _ _ _ hp2
  refine ⟨seg0 ++ seg1 ++ seg2 ++ [Event.setCalibrationMatrix calibrationTargets
      { p0 := { x := Int.ofNat r0.x, y := Int.ofNat r0.y },
        p1 := { x := Int.ofNat r1.x, y := Int.ofNat r1.y },
        p2 := { x := Int.ofNat r2.x, y := Int.ofNat r2.y } }], ?_, ?_, ?_⟩
  · simp only [Polled.finalState, emit]
    rw [ht2, ht1, ht0]; simp
  · exact releaseBetween_of_heldAfter _ false false
      (heldAfter_append_of _ _ false false false
        (heldAfter_append_of _ _ false false false
          (heldAfter_append_of _ _ false false false hm0 hm1) hm2) rfl)
  · intro r _
    exact ⟨_, _, _, seg0, seg1, seg2, rfl, hp0, hp1, hp2⟩

set_option maxRecDepth 1000000

/-- C6 at two runs.  With three touches of twelve pin reads each, released at
the thirteenth, the run completes after 39 reads of the pin and 180 transfers
and solves with the raw points (100,100), (200,100), (200,300); with a touch
that is never released it is still polling for the release after target 1. -/
theorem TouchCalibrate_press_release_witness :
    10 ≤ 10
    ∧ (match TouchCalibrate calibrateSpec matrixIdentity envCorners 10 idleState with
        | Polled.returned r => some (r.2.pinReads, r.2.xfers, r.2.trace.getLast?)
        | Polled.polling _ => none)
        = some (39, 180, some (Event.setCalibrationMatrix calibrationTargets
            { p0 := { x := 100, y := 100 }, p1 := { x := 200, y := 100 },
              p2 := { x := 200, y := 300 } }))
    ∧ (match TouchCalibrate calibrateSpec matrixIdentity envHeld 10 idleState with
        | Polled.returned _ => none
        | Polled.polling s => some (s.pinReads, s.xfers, s.trace.getLast?))
        = some (22, 60, some (Event.pinRead GPIO_PinState.GPIO_PIN_RESET))
    ∧ ∃ d, (TouchCalibrate calibrateSpec matrixIdentity envCorners 10 idleState).finalState.trace
          = idleState.trace ++ d
      ∧ ReleaseBetween d
      ∧ ∀ r, TouchCalibrate calibrateSpec matrixIdentity envCorners 10 idleState
            = Polled.returned r →
          ∃ raw0 raw1 raw2 seg0 seg1 seg2,
            d = seg0 ++ seg1 ++ seg2
                ++ [Event.setCalibrationMatrix
                      { p0 := { x := 40, y := 40 }, p1 := { x := 200, y := 40 },
                        p2 := { x := 200, y := 280 } }
                      { p0 := raw0, p1 := raw1, p2 := raw2 }]
            ∧ PhaseTrace 40 40 raw0 seg0 ∧ PhaseTrace 200 40 raw1 seg1
            ∧ PhaseTrace 200 280 raw2 seg2 :=
  ⟨by decide, by rfl, by rfl,
    TouchCalibrate_press_release calibrateSpec matrixIdentity envCorners 10 idleState
      (by decide)⟩

/-! ## The status of the solve -/

theorem solveSpec_collinear (display raw : Points3) (m : MATRIX) (h : collinear raw) :
    (calibrateSpec.setCalibrationMatrix display raw m).1 ≠ 0
    ∧ (calibrateSpec.setCalibrationMatrix display raw m).2 = m := by
  unfold collinear at h
  simp [calibrateSpec, solveSpec, h]

end Touch
